import Mathlib

set_option maxRecDepth 10000

/-!
Shallow embedding of the core modules of the AI-LogAnalysis repository:

* `src/utils/ip_masker.py`  — class `IPMasker` (reversible IP pseudonymization);
* `src/utils/log_parser.py` — class `LogParser` (format detection, enrichment,
  summary aggregation).

Python dictionaries are embedded as insertion-ordered association lists with
dict assignment semantics (update-in-place if the key exists, append
otherwise).  Python strings are Lean `String`s; the regular expressions of the
source are embedded as executable matchers over `List Char` whose semantics
follow the backtracking behaviour of Python's `re` module on the concrete
patterns appearing in the source (documented at each definition).  `\w`, `\s`
and case folding are modelled over ASCII, which covers every pattern and every
input considered here.
-/

namespace PyDict

/-- Lookup in an insertion-ordered association list (Python `d[k]` / `d.get(k)`;
keys are unique in all states built by `assign`). -/
def lookup {α β : Type} [DecidableEq α] : List (α × β) → α → Option β
  | [], _ => none
  | (k2, v) :: rest, k => if k2 = k then some v else lookup rest k

/-- Python dict assignment `d[k] = v`: replaces the value in place when the key
is present, appends a new pair at the end otherwise. -/
def assign {α β : Type} [DecidableEq α] : List (α × β) → α → β → List (α × β)
  | [], k, v => [(k, v)]
  | (k2, w) :: rest, k, v =>
    if k2 = k then (k2, v) :: rest else (k2, w) :: assign rest k v

end PyDict

namespace IPMaskerM

/-- Decimal value of a digit string (`int` applied to an all-digit Python
string).  The source only ever applies `int` to digit runs taken from
dot-separated addresses, so non-digit input (on which Python `int` raises) is
outside the modelled domain. -/
def digitVal (cs : List Char) : Nat :=
  cs.foldl (fun n c => n * 10 + (c.toNat - 48)) 0

/-- `int(ip.split('.')[0])`: the numeric value of the first dot-separated
component of the address. -/
def first_octet (ip : String) : Nat :=
  digitVal (ip.data.takeWhile (fun c => c ≠ '.'))

/-- One octet of the bounded IP pattern `IP_PATTERN`: the alternation
`25[0-5]|2[0-4][0-9]|[01]?[0-9][0-9]?` consumes a whole digit run exactly when
the run has length 1–3 and value ≤ 255 (leading zeros allowed). -/
def validRun (r : List Char) : Bool :=
  !r.isEmpty && r.all Char.isDigit && decide (r.length ≤ 3) && decide (digitVal r ≤ 255)

/-- A whole string is an IPv4 literal in the sense of `IPMasker.IP_PATTERN`:
four valid octet runs separated by dots. -/
def splitDots : List Char → List (List Char)
  | [] => [[]]
  | c :: rest =>
    if c = '.' then [] :: splitDots rest
    else
      match splitDots rest with
      | g :: gs => (c :: g) :: gs
      | [] => [[c]]

def isIPv4Lit (ip : String) : Bool :=
  match splitDots ip.data with
  | [a, b, c, d] => validRun a && validRun b && validRun c && validRun d
  | _ => false

/-- The state of one `IPMasker` instance: `self.mapping` (original → pseudonym)
and `self.reverse_mapping` (pseudonym → original), both Python dicts. -/
structure MaskState where
  mapping : List (String × String)
  reverse_mapping : List (String × String)
deriving DecidableEq, Repr

def emptyState : MaskState := ⟨[], []⟩

/-- The two counter-derived octets of a fresh pseudonym:
`{len(mapping) % 256}.{(len(mapping) // 256) % 256}`. -/
def counterOctets (n : Nat) : String :=
  toString (n % 256) ++ "." ++ toString (n / 256 % 256)

/-- The pseudonym synthesized for a fresh address whose first octet is `fo`,
when the mapping currently has `n` entries (the class dispatch of
`IPMasker.mask_ip`). -/
def maskedFor (fo : Nat) (n : Nat) : String :=
  if 1 ≤ fo ∧ fo ≤ 126 then "10.0." ++ counterOctets n
  else if 128 ≤ fo ∧ fo ≤ 191 then "172.16." ++ counterOctets n
  else if 192 ≤ fo ∧ fo ≤ 223 then "192.168." ++ counterOctets n
  else "169.254." ++ counterOctets n

/-- `IPMasker.mask_ip` (pure part: in-memory effect and return value; the
durable write is modelled separately by `mask_ip_withSave`).  The unused
Fernet ciphertext `encrypted` computed by the source is dead code and not
modelled. -/
def mask_ip (s : MaskState) (ip : String) : String × MaskState :=
  match PyDict.lookup s.mapping ip with
  | some m => (m, s)
  | none =>
    let masked := maskedFor (first_octet ip) s.mapping.length
    (masked,
     { mapping := PyDict.assign s.mapping ip masked,
       reverse_mapping := PyDict.assign s.reverse_mapping masked ip })

/-- `IPMasker.unmask_ip`: reverse lookup, returning the input when unknown. -/
def unmask_ip (s : MaskState) (masked : String) : String :=
  (PyDict.lookup s.reverse_mapping masked).getD masked

/-- `IPMasker.clear_mappings`. -/
def clear_mappings (_s : MaskState) : MaskState := ⟨[], []⟩

/-- `IPMasker.get_mapping`: `{mask: ip for ip, mask in self.mapping.items()}`. -/
def get_mapping (s : MaskState) : List (String × String) :=
  s.mapping.map (fun kv => (kv.2, kv.1))

/-- `IPMasker.mask_ip` together with the synchronous durable write
`self._save_mapping()`.  The in-memory dictionaries are updated *before* the
write; a failing write (modelled by `saveOk = false`) raises after the update,
so the error carries the already-updated state.  A cached hit returns early
and performs no write. -/
def mask_ip_withSave (saveOk : Bool) (s : MaskState) (ip : String) :
    Except Unit String × MaskState :=
  match PyDict.lookup s.mapping ip with
  | some m => (Except.ok m, s)
  | none =>
    let masked := maskedFor (first_octet ip) s.mapping.length
    let s' : MaskState :=
      { mapping := PyDict.assign s.mapping ip masked,
        reverse_mapping := PyDict.assign s.reverse_mapping masked ip }
    (if saveOk then Except.ok masked else Except.error (), s')

/-- Durable mapping store as seen by `IPMasker._load_mapping`: the file may be
missing, unreadable/unparsable (any exception from `open`/`json.load`), or
hold a stored mapping. -/
inductive DiskMapping
  | missing
  | unreadable
  | stored (m : List (String × String))

/-- `IPMasker._load_mapping`: `{}` when the file is missing, `{}` when reading
or parsing raises, the stored mapping otherwise. -/
def load_mapping : DiskMapping → List (String × String)
  | .missing => []
  | .unreadable => []
  | .stored m => m

/-- `dict(items[-max_mappings:])` from `IPMasker._trim_mappings`.  Python
`items[-0:]` is the whole list, so a zero bound keeps everything. -/
def pyTailSlice (maxM : Nat) (m : List (String × String)) : List (String × String) :=
  if maxM = 0 then m else m.drop (m.length - maxM)

/-- `IPMasker.__init__`: load the mapping, trim it when it exceeds
`max_mappings`, and build `reverse_mapping = {v: k for k, v in mapping.items()}`. -/
def initMasker (disk : DiskMapping) (maxM : Nat) : MaskState :=
  let m := load_mapping disk
  let m2 := if m.length > maxM then pyTailSlice maxM m else m
  { mapping := m2,
    reverse_mapping := m2.foldl (fun acc kv => PyDict.assign acc kv.2 kv.1) [] }

/-- One octet of `IP_PATTERN` followed by a literal dot.  Backtracking over the
octet alternation forces the octet to consume the whole digit run (a shorter
candidate would be followed by a digit instead of the required `\.`), so a
match is exactly: the maximal digit run is a valid octet and a `.` follows. -/
def octetDot (s : List Char) : Option (List Char × List Char) :=
  let r := s.takeWhile Char.isDigit
  match s.dropWhile Char.isDigit with
  | '.' :: rest => if validRun r then some (r, rest) else none
  | _ => none

/-- The final octet of `IP_PATTERN`, which is followed by `(?!\d)`: again the
whole digit run must be consumed (any shorter candidate is followed by a
digit), and maximality of the run discharges the negative lookahead. -/
def octetEnd (s : List Char) : Option (List Char × List Char) :=
  let r := s.takeWhile Char.isDigit
  if validRun r then some (r, s.dropWhile Char.isDigit) else none

/-- A match of `IP_PATTERN` anchored at the current position: the lookbehind
`(?<!\d)` (the previous character of the original text, if any, is not a
digit) plus four octets.  Returns the matched literal and the rest of the
text. -/
def ipMatchAt (prevDigit : Bool) (s : List Char) : Option (List Char × List Char) :=
  if prevDigit then none
  else
    match octetDot s with
    | none => none
    | some (r1, s1) =>
      match octetDot s1 with
      | none => none
      | some (r2, s2) =>
        match octetDot s2 with
        | none => none
        | some (r3, s3) =>
          match octetEnd s3 with
          | none => none
          | some (r4, rest) =>
            some (r1 ++ '.' :: r2 ++ '.' :: r3 ++ '.' :: r4, rest)

/-- `re.sub(IP_PATTERN, replace_ip, text)` from `IPMasker.mask_text`: scan the
original text left to right, replace each non-overlapping leftmost match by
`mask_ip` of the matched literal (threading the mapping state), and continue
after the match (the character before the next candidate position is the last
character of the original text, never of a replacement).  `fuel` is an upper
bound on the number of scan steps; `mask_text` supplies `length + 1`, which is
always sufficient since every step consumes at least one character. -/
def maskTextGo : Nat → Bool → List Char → MaskState → List Char × MaskState
  | _, _, [], s => ([], s)
  | 0, _, cs, s => (cs, s)
  | fuel + 1, prevD, c :: rest, s =>
    match ipMatchAt prevD (c :: rest) with
    | some (lit, rest') =>
      let r1 := mask_ip s (String.mk lit)
      let r2 := maskTextGo fuel true rest' r1.2
      (r1.1.data ++ r2.1, r2.2)
    | none =>
      let r2 := maskTextGo fuel c.isDigit rest s
      (c :: r2.1, r2.2)

/-- `IPMasker.mask_text` (the `if not text` guard is the identity on the empty
string, which the scan also returns unchanged). -/
def mask_text (s : MaskState) (t : String) : String × MaskState :=
  let r := maskTextGo (t.data.length + 1) false t.data s
  (String.mk r.1, r.2)

/-- `re.search(IP_PATTERN, text)` succeeds somewhere in the text (used to state
"the text contains an IPv4 literal"). -/
def hasIPMatch : Bool → List Char → Bool
  | _, [] => false
  | prevD, c :: rest => (ipMatchAt prevD (c :: rest)).isSome || hasIPMatch c.isDigit rest

/-- Literal prefix test (the alternation of escaped pseudonyms in
`IPMasker.unmask_text` consists of plain literals with no boundary guards). -/
def litAt : List Char → List Char → Bool
  | [], _ => true
  | _ :: _, [] => false
  | p :: ps, c :: ss => p = c && litAt ps ss

/-- `p` occurs as a substring of `s`. -/
def occursIn (p : List Char) : List Char → Bool
  | [] => litAt p []
  | c :: rest => litAt p (c :: rest) || occursIn p rest

/-- `re.sub('(m1|m2|...)', replace_mask, text)` from `IPMasker.unmask_text`:
at each position, the first pseudonym (in `reverse_mapping` key order, the
order of the alternation) that literally matches is replaced by its original;
otherwise the character is copied.  Every pseudonym in a reachable state is a
non-empty dotted quad, so `length + 1` fuel suffices. -/
def unmaskGo (s : MaskState) : Nat → List Char → List Char
  | _, [] => []
  | 0, cs => cs
  | fuel + 1, c :: rest =>
    match (s.reverse_mapping.map Prod.fst).find? (fun m => litAt m.data (c :: rest)) with
    | some m => (unmask_ip s m).data ++ unmaskGo s fuel (List.drop m.data.length (c :: rest))
    | none => c :: unmaskGo s fuel rest

/-- `IPMasker.unmask_text`: identity when no pseudonyms are known, otherwise
the combined-alternation substitution. -/
def unmask_text (s : MaskState) (t : String) : String :=
  if s.reverse_mapping.isEmpty then t
  else String.mk (unmaskGo s (t.data.length + 1) t.data)

/-- The forward half of the mapping invariant of §3: every pair recorded in
`mapping` is also recorded, reversed, in `reverse_mapping`. -/
def InvF (s : MaskState) : Prop :=
  ∀ k v, PyDict.lookup s.mapping k = some v → PyDict.lookup s.reverse_mapping v = some k

/-- The two dictionaries are mutually inverse bijections: original addresses
are pairwise distinct, pseudonyms are pairwise distinct, and
`reverse_mapping` is exactly the transposed `mapping`. -/
def MutuallyInverse (s : MaskState) : Prop :=
  (s.mapping.map Prod.fst).Nodup ∧ (s.mapping.map Prod.snd).Nodup ∧
    s.reverse_mapping = s.mapping.map (fun kv => (kv.2, kv.1))

/-- One session operation on the masker state. -/
inductive MaskOp
  | mask (ip : String)
  | clear

/-- Run a sequence of `mask_ip` / `clear_mappings` calls. -/
def runOps : List MaskOp → MaskState → MaskState
  | [], s => s
  | .mask ip :: ops, s => runOps ops (mask_ip s ip).2
  | .clear :: ops, s => runOps ops (clear_mappings s)

/-- Invariant carried through a session that starts from the empty mapping:
keys are distinct, `reverse_mapping` transposes `mapping`, the size never
exceeds `65536`, and the pseudonym stored at index `i` was synthesized from
counter value `i`. -/
def GoodState (s : MaskState) : Prop :=
  (s.mapping.map Prod.fst).Nodup ∧
    s.reverse_mapping = s.mapping.map (fun kv => (kv.2, kv.1)) ∧
    s.mapping.length ≤ 65536 ∧
    ∀ (i : Nat) (h : i < s.mapping.length),
      (s.mapping[i]).2 = maskedFor (first_octet (s.mapping[i]).1) i

/-- A session whose loaded store is the bijection
`{"8.8.8.8": "10.0.1.0"}` (reachable on disk: a previous session with
`max_mappings = 1` masks two class-A addresses and is trimmed on reload). -/
def loadedBijSession : MaskState :=
  initMasker (.stored [("8.8.8.8", "10.0.1.0")]) 500

/-- The state after masking one class-A address in a fresh session
(mapping `1.2.3.4 ↦ 10.0.0.0`). -/
def oneMaskState : MaskState := (mask_ip emptyState "1.2.3.4").2

end IPMaskerM


namespace LogParserM

/-! ### Character classes and matcher combinators (ASCII model of `re`) -/

/-- `\w` (ASCII): letters, digits, underscore. -/
def isWordAscii (c : Char) : Bool := c.isAlpha || c.isDigit || c = '_'

/-- `\s` (ASCII): the six whitespace characters recognised by `re`. -/
def isSpc (c : Char) : Bool :=
  c = ' ' || c = '\t' || c = '\n' || c = '\r' || c = '\x0b' || c = '\x0c'

/-- ASCII lowering, used for `re.IGNORECASE` comparisons. -/
def asciiLower (c : Char) : Char :=
  if 'A' ≤ c ∧ c ≤ 'Z' then Char.ofNat (c.toNat + 32) else c

/-- Consume exactly `k` digits (`\d{k}`). -/
def takeDigits : Nat → List Char → Option (List Char)
  | 0, s => some s
  | k + 1, c :: rest => if c.isDigit then takeDigits k rest else none
  | _ + 1, [] => none

/-- Consume exactly `k` word characters (`\w{k}`). -/
def takeWordChars : Nat → List Char → Option (List Char)
  | 0, s => some s
  | k + 1, c :: rest => if isWordAscii c then takeWordChars k rest else none
  | _ + 1, [] => none

/-- Consume one literal character. -/
def chompc (c : Char) (s : List Char) : Option (List Char) :=
  match s with
  | d :: rest => if d = c then some rest else none
  | [] => none

/-- `\s+`: at least one whitespace character, consumed maximally (every use in
the source is followed by a non-whitespace token, so the greedy maximal run is
the only viable choice). -/
def spacesPlus (s : List Char) : Option (List Char) :=
  match s with
  | c :: rest => if isSpc c then some (rest.dropWhile isSpc) else none
  | [] => none

/-- Case-insensitive literal match: strip pattern `p` from the head of `s`. -/
def stripCI : List Char → List Char → Option (List Char)
  | [], s => some s
  | p :: ps, c :: ss => if asciiLower p = asciiLower c then stripCI ps ss else none
  | _ :: _, [] => none

def litCIb (p : String) (s : List Char) : Bool := (stripCI p.data s).isSome

/-- Ordered two-way literal alternation (`(?:a|b)`); every use in the source
has alternatives that differ in their first character, so committing to the
first match is faithful to the backtracking engine. -/
def altStripCI (a b : String) (s : List Char) : Option (List Char) :=
  match stripCI a.data s with
  | some r => some r
  | none => stripCI b.data s

/-- `re.search`: try the matcher at every position, leftmost first. -/
def searchO {α : Type} (f : List Char → Option α) : List Char → Option α
  | [] => f []
  | c :: rest =>
    match f (c :: rest) with
    | some a => some a
    | none => searchO f rest

/-- Boolean `re.search`. -/
def searchB (f : List Char → Bool) : List Char → Bool
  | [] => f []
  | c :: rest => f (c :: rest) || searchB f rest

/-- Boolean `re.search` threading the previous character (for `\b`). -/
def searchBP (f : Option Char → List Char → Bool) : Option Char → List Char → Bool
  | prev, [] => f prev []
  | prev, c :: rest => f prev (c :: rest) || searchBP f (some c) rest

/-- Length of the maximal `.`-matchable run (a dot never matches a newline). -/
def nlFree (s : List Char) : Nat := (s.takeWhile (fun c => c ≠ '\n')).length

/-- Greedy `.*` / `.+` (with `minC` = 1 for `.+`) followed by continuation
`k`: try the longest newline-free consumption first, backtracking to shorter
ones. -/
def greedyDot {α : Type} (minC : Nat) (s : List Char) (k : List Char → Option α) : Option α :=
  ((List.range (nlFree s + 1)).reverse).findSome?
    (fun n => if minC ≤ n then k (s.drop n) else none)

/-- Lazy `.*?` followed by continuation `k`: shortest consumption first. -/
def lazyDot {α : Type} (s : List Char) (k : List Char → Option α) : Option α :=
  (List.range (nlFree s + 1)).findSome? (fun n => k (s.drop n))

/-- Boolean lazy `.*?` (only existence matters). -/
def lazyDotB (f : List Char → Bool) (s : List Char) : Bool :=
  (List.range (nlFree s + 1)).any (fun n => f (s.drop n))

/-! ### Timestamp conventions of `LogParser._parse_log_or_txt` -/

/-- `^\d{4}-\d{2}-\d{2}T\d{2}:\d{2}:\d{2}` (anchored, fixed counts: no
backtracking choice exists). -/
def isoAt (s : List Char) : Bool :=
  (do
    let s ← takeDigits 4 s
    let s ← chompc '-' s
    let s ← takeDigits 2 s
    let s ← chompc '-' s
    let s ← takeDigits 2 s
    let s ← chompc 'T' s
    let s ← takeDigits 2 s
    let s ← chompc ':' s
    let s ← takeDigits 2 s
    let s ← chompc ':' s
    let _ ← takeDigits 2 s
    pure ()).isSome

/-- `^\d{4}-\d{2}-\d{2}\s+\d{2}:\d{2}:\d{2}` (the `\s+` is followed by a
digit, so its maximal run is the only viable choice). -/
def spacedAt (s : List Char) : Bool :=
  (do
    let s ← takeDigits 4 s
    let s ← chompc '-' s
    let s ← takeDigits 2 s
    let s ← chompc '-' s
    let s ← takeDigits 2 s
    let s ← spacesPlus s
    let s ← takeDigits 2 s
    let s ← chompc ':' s
    let s ← takeDigits 2 s
    let s ← chompc ':' s
    let _ ← takeDigits 2 s
    pure ()).isSome

/-- Body of `\[\d{2}/\w{3}/\d{4}:\d{2}:\d{2}:\d{2}\s+[\+\-]\d{4}\]`
anchored at one position (the `\s+` is followed by `+`/`-`, not whitespace). -/
def apacheAt (s : List Char) : Bool :=
  (do
    let s ← chompc '[' s
    let s ← takeDigits 2 s
    let s ← chompc '/' s
    let s ← takeWordChars 3 s
    let s ← chompc '/' s
    let s ← takeDigits 4 s
    let s ← chompc ':' s
    let s ← takeDigits 2 s
    let s ← chompc ':' s
    let s ← takeDigits 2 s
    let s ← chompc ':' s
    let s ← takeDigits 2 s
    let s ← spacesPlus s
    let s ← (match s with
             | c :: rest => if c = '+' || c = '-' then some rest else none
             | [] => none)
    let s ← takeDigits 4 s
    let _ ← chompc ']' s
    pure ()).isSome

/-- `^\w{3}\s+\d{1,2}\s+\d{2}:\d{2}:\d{2}`: the greedy `\d{1,2}` must be
followed by `\s+`, so the maximal digit run must have length 1 or 2 (a longer
run leaves a digit where whitespace is required, and every backtracking
candidate fails the same way). -/
def syslogAt (s : List Char) : Bool :=
  (do
    let s ← takeWordChars 3 s
    let s ← spacesPlus s
    let r := s.takeWhile Char.isDigit
    let s ← (if r.length = 1 || r.length = 2 then some (s.dropWhile Char.isDigit) else none)
    let s ← spacesPlus s
    let s ← takeDigits 2 s
    let s ← chompc ':' s
    let s ← takeDigits 2 s
    let s ← chompc ':' s
    let _ ← takeDigits 2 s
    pure ()).isSome

/-- The four timestamp conventions, in the fixed priority order of
`timestamp_patterns`. -/
inductive TsPattern
  | iso
  | spaced
  | apache
  | syslog
deriving DecidableEq, Repr

/-- `re.search(pattern, line)`: the first three patterns are `^`-anchored, the
bracketed Apache pattern searches anywhere in the line. -/
def tsMatches : TsPattern → String → Bool
  | .iso, line => isoAt line.data
  | .spaced, line => spacedAt line.data
  | .apache, line => searchB apacheAt line.data
  | .syslog, line => syslogAt line.data

def timestampPatternOrder : List TsPattern := [.iso, .spaced, .apache, .syslog]

/-- Pattern detection: the first convention matching every one of the first
(up to) 10 lines (`all(matches)` over `lines[:10]`). -/
def detectTs (lines : List String) : Option TsPattern :=
  timestampPatternOrder.find? (fun p => (lines.take 10).all (tsMatches p))

/-- One record of the timestamp-split DataFrame: `timestamp` is the whole
opening line, `message` the concatenation of its continuation lines. -/
structure TsEntry where
  timestamp : String
  message : String
deriving DecidableEq, Repr

/-- `''.join(...)`. -/
def joinAll (ls : List String) : String := ls.foldl (fun a b => a ++ b) ""

/-- The entry-splitting loop of `_parse_log_or_txt`: `cur` is
`current_entry`; a matching line flushes the current entry and opens a new
one; a non-matching line is appended to the current entry (or opens one when
none is active, which cannot happen once a convention was detected). -/
def splitEntries (p : TsPattern) : List String → List String → List TsEntry
  | cur, [] => if cur.isEmpty then [] else [⟨cur.headD "", joinAll cur.tail⟩]
  | cur, l :: ls =>
    if tsMatches p l then
      if cur.isEmpty then splitEntries p [l] ls
      else ⟨cur.headD "", joinAll cur.tail⟩ :: splitEntries p [l] ls
    else
      if cur.isEmpty then splitEntries p [l] ls
      else splitEntries p (cur ++ [l]) ls

/-- The parsed shape of a `.log`/`.txt` DataFrame: either a `raw_log` column
(one row per line) or `timestamp`/`message` columns. -/
inductive ParsedDF
  | rawDF (lines : List String)
  | tsDF (entries : List TsEntry)
deriving DecidableEq, Repr

/-- `LogParser._parse_log_or_txt` on the file's lines (as read by
`readlines`, i.e. keeping their newline terminators — the matchers never
depend on them). -/
def parse_log_or_txt (lines : List String) : ParsedDF :=
  if lines.isEmpty then .rawDF []
  else
    match detectTs lines with
    | some p => .tsDF (splitEntries p [] lines)
    | none => .rawDF lines

/-- Spec-side reading of the grouping ("each line matching the convention
opens a new record whose message accumulates all subsequent non-matching
lines"), written independently of the source loop as a right fold: the first
component accumulates the continuation lines standing before the next
matching line. -/
def specGroupStep (p : TsPattern) (l : String) (acc : List String × List TsEntry) :
    List String × List TsEntry :=
  if tsMatches p l then ([], ⟨l, joinAll acc.1⟩ :: acc.2)
  else (l :: acc.1, acc.2)

def specGrouping (p : TsPattern) (ls : List String) : List TsEntry :=
  (ls.foldr (specGroupStep p) ([], [])).2

end LogParserM


namespace LogParserM

/-! ### Attack patterns (`LogParser.ATTACK_PATTERNS`, compiled with
`re.IGNORECASE`).  Group values are the verbatim text slices. -/

/-- Capture groups of one attack-pattern match (`match.group(1)` and, when the
pattern declares two groups, `match.group(2)`). -/
structure AttackGroups where
  g1 : String
  g2 : Option String
deriving DecidableEq, Repr

/-- `\d+\.\d+\.\d+\.\d+` anchored at the current position: each of the first
three `\d+` must consume its whole digit run (a shorter candidate is followed
by a digit, not the required `\.`), the last one is greedy-maximal. -/
def dPlusDot (s : List Char) : Option (List Char × List Char) :=
  let r := s.takeWhile Char.isDigit
  if r.isEmpty then none
  else
    match s.dropWhile Char.isDigit with
    | '.' :: rest => some (r, rest)
    | _ => none

def ipChase (s : List Char) : Option (String × List Char) :=
  match dPlusDot s with
  | none => none
  | some (r1, s1) =>
    match dPlusDot s1 with
    | none => none
    | some (r2, s2) =>
      match dPlusDot s2 with
      | none => none
      | some (r3, s3) =>
        let r4 := s3.takeWhile Char.isDigit
        if r4.isEmpty then none
        else some (String.mk (r1 ++ '.' :: r2 ++ '.' :: r3 ++ '.' :: r4),
                   s3.dropWhile Char.isDigit)

/-- Ordered literal alternation with capture of the verbatim matched slice
(all alternation lists used in the source have pairwise distinct first
characters, so committing to the first prefix match is faithful). -/
def altCap (alts : List String) (s : List Char) : Option (String × List Char) :=
  alts.findSome? (fun a =>
    match stripCI a.data s with
    | some rest => some (String.mk (s.take a.data.length), rest)
    | none => none)

/-- `Failed password for .+ from (\d+\.\d+\.\d+\.\d+)`. -/
def mSshFailed (t : List Char) : Option AttackGroups :=
  searchO (fun s => do
    let s1 ← stripCI "failed password for ".data s
    greedyDot 1 s1 (fun s2 => do
      let s3 ← stripCI " from ".data s2
      let (ip, _) ← ipChase s3
      pure ⟨ip, none⟩)) t

/-- `repeated login failures from (\d+\.\d+\.\d+\.\d+)`. -/
def mSshRepeated (t : List Char) : Option AttackGroups :=
  searchO (fun s => do
    let s1 ← stripCI "repeated login failures from ".data s
    let (ip, _) ← ipChase s1
    pure ⟨ip, none⟩) t

/-- `blocked (?:from|source) (\d+\.…).*(?:to|dest) (\d+\.…)`. -/
def mFirewall (t : List Char) : Option AttackGroups :=
  searchO (fun s => do
    let s1 ← stripCI "blocked ".data s
    let s2 ← altStripCI "from " "source " s1
    let (ip1, s3) ← ipChase s2
    greedyDot 0 s3 (fun s4 => do
      let s5 ← altStripCI "to " "dest " s4
      let (ip2, _) ← ipChase s5
      pure ⟨ip1, some ip2⟩)) t

/-- `scan from (\d+\.\d+\.\d+\.\d+)`. -/
def mPortScan (t : List Char) : Option AttackGroups :=
  searchO (fun s => do
    let s1 ← stripCI "scan from ".data s
    let (ip, _) ← ipChase s1
    pure ⟨ip, none⟩) t

def webAlts : List String :=
  ["SQL injection", "XSS", "CSRF", "directory traversal", "file inclusion"]

/-- Continuation of the web-attack pattern after the greedy `.*`: the literal
`from `, then the captured address. -/
def webCont (cap : String) (s2 : List Char) : Option AttackGroups := do
  let s3 ← stripCI "from ".data s2
  let (ip, _) ← ipChase s3
  pure ⟨cap, some ip⟩

/-- `(SQL injection|XSS|CSRF|directory traversal|file inclusion).*from (\d+\.…)`. -/
def mWebAttack (t : List Char) : Option AttackGroups :=
  searchO (fun s => do
    let (cap, s1) ← altCap webAlts s
    greedyDot 0 s1 (webCont cap)) t

def malAlts : List String := ["trojan", "virus", "malware", "ransomware", "backdoor"]

/-- `(?:trojan|virus|malware|ransomware|backdoor) .*?(\d+\.\d+\.\d+\.\d+)`. -/
def mMalware (t : List Char) : Option AttackGroups :=
  searchO (fun s => do
    let (_, s1) ← altCap malAlts s
    let s2 ← chompc ' ' s1
    lazyDot s2 (fun s3 => do
      let (ip, _) ← ipChase s3
      pure ⟨ip, none⟩)) t

def dosAlts : List String := ["DoS", "DDoS", "flood"]

/-- `(DoS|DDoS|flood).*from (\d+\.\d+\.\d+\.\d+)` (note: `DoS` is tried before
`DDoS`, and no text prefix-matches both). -/
def mDos (t : List Char) : Option AttackGroups :=
  searchO (fun s => do
    let (cap, s1) ← altCap dosAlts s
    greedyDot 0 s1 (fun s2 => do
      let s3 ← stripCI "from ".data s2
      let (ip, _) ← ipChase s3
      pure ⟨cap, some ip⟩)) t

/-- The keys of `ATTACK_PATTERNS`, in dict (insertion) order. -/
inductive AttackId
  | ssh_failed_login
  | ssh_repeated_login
  | firewall_block
  | port_scan
  | web_attack
  | malware
  | dos_attack
deriving DecidableEq, Repr

def attackOrder : List AttackId :=
  [.ssh_failed_login, .ssh_repeated_login, .firewall_block, .port_scan,
   .web_attack, .malware, .dos_attack]

def attackMatch : AttackId → String → Option AttackGroups
  | .ssh_failed_login, t => mSshFailed t.data
  | .ssh_repeated_login, t => mSshRepeated t.data
  | .firewall_block, t => mFirewall t.data
  | .port_scan, t => mPortScan t.data
  | .web_attack, t => mWebAttack t.data
  | .malware, t => mMalware t.data
  | .dos_attack, t => mDos t.data

/-- `LogParser._get_attack_type_name` (the `attack_names` table covers every
key, so the raw-name fallback of `.get(attack_type, attack_type)` is never
taken). -/
def friendlyName : AttackId → String
  | .ssh_failed_login => "SSH登录失败"
  | .ssh_repeated_login => "多次SSH登录失败"
  | .firewall_block => "防火墙阻断"
  | .port_scan => "端口扫描"
  | .web_attack => "Web应用攻击"
  | .malware => "恶意软件"
  | .dos_attack => "拒绝服务攻击"

/-! ### Threat signatures (`LogParser.THREAT_SIGNATURES`, `re.IGNORECASE`) -/

inductive SigId
  | sql_injection
  | xss
  | command_injection
  | file_inclusion
  | bruteforce
  | privilege_escalation
deriving DecidableEq, Repr

def sigOrder : List SigId :=
  [.sql_injection, .xss, .command_injection, .file_inclusion, .bruteforce,
   .privilege_escalation]

def sigSeverity : SigId → String
  | .sql_injection => "高"
  | .xss => "中"
  | .command_injection => "高"
  | .file_inclusion => "高"
  | .bruteforce => "中"
  | .privilege_escalation => "高"

def sigDescription : SigId → String
  | .sql_injection => "SQL注入攻击尝试"
  | .xss => "跨站脚本攻击(XSS)尝试"
  | .command_injection => "命令注入攻击尝试"
  | .file_inclusion => "文件包含或路径遍历攻击尝试"
  | .bruteforce => "暴力破解或密码猜测攻击"
  | .privilege_escalation => "权限提升尝试"

/-- Literal, then `\s+`, then literal (`union\s+select` and friends; the
`\s+` run is followed by a non-whitespace letter, so maximal is faithful). -/
def seqSpacedCI (a b : String) (s : List Char) : Bool :=
  (do
    let s1 ← stripCI a.data s
    let s2 ← spacesPlus s1
    let _ ← stripCI b.data s2
    pure ()).isSome

/-- `\b(or|and)\s+1=1` at one position, given the previous character. -/
def orAnd11At (prev : Option Char) (s : List Char) : Bool :=
  (match prev with
   | some c => !isWordAscii c
   | none => true) &&
  (do
    let s1 ← altStripCI "or" "and" s
    let s2 ← spacesPlus s1
    let _ ← stripCI "1=1".data s2
    pure ()).isSome

/-- `(?:SQL injection|SQLMAP|union\s+select|select\s+from|'--|\b(or|and)\s+1=1)`. -/
def sigSql (t : List Char) : Bool :=
  searchB (fun s => litCIb "sql injection" s || litCIb "sqlmap" s ||
    seqSpacedCI "union" "select" s || seqSpacedCI "select" "from" s ||
    litCIb "'--" s) t ||
  searchBP orAnd11At none t

/-- `(?:<script>|javascript:|onerror=|onload=|eval\(|document\.cookie)`. -/
def sigXss (t : List Char) : Bool :=
  searchB (fun s => litCIb "<script>" s || litCIb "javascript:" s ||
    litCIb "onerror=" s || litCIb "onload=" s || litCIb "eval(" s ||
    litCIb "document.cookie" s) t

/-- One `\s` character. -/
def oneSpc (s : List Char) : Option (List Char) :=
  match s with
  | c :: rest => if isSpc c then some rest else none
  | [] => none

/-- Literal followed by a single `\s` (`;ls\s` and friends, `su\s`). -/
def litSpcCI (a : String) (s : List Char) : Bool :=
  (do
    let s1 ← stripCI a.data s
    let _ ← oneSpc s1
    pure ()).isSome

/-- `\|\s*bash` / `\|\s*sh`: pipe, maximal whitespace run (`\s*` is followed
by a letter), then the literal. -/
def pipeCmdCI (a : String) (s : List Char) : Bool :=
  (do
    let s1 ← chompc '|' s
    let _ ← stripCI a.data (s1.dropWhile isSpc)
    pure ()).isSome

/-- `(?:;ls\s|;cat\s|;rm\s|;wget\s|\|\s*bash|\|\s*sh)`. -/
def sigCmd (t : List Char) : Bool :=
  searchB (fun s => litSpcCI ";ls" s || litSpcCI ";cat" s || litSpcCI ";rm" s ||
    litSpcCI ";wget" s || pipeCmdCI "bash" s || pipeCmdCI "sh" s) t

/-- `(?:\.\.\/|\.\.\%2f|\/etc\/passwd|\/var\/www)`. -/
def sigFileInc (t : List Char) : Bool :=
  searchB (fun s => litCIb "../" s || litCIb "..%2f" s ||
    litCIb "/etc/passwd" s || litCIb "/var/www" s) t

/-- `(?:brute force|dictionary attack|password guess|login failure)`. -/
def sigBrute (t : List Char) : Bool :=
  searchB (fun s => litCIb "brute force" s || litCIb "dictionary attack" s ||
    litCIb "password guess" s || litCIb "login failure" s) t

/-- `chmod\s+[0-7]*s`: `\s+` maximal (followed by a digit or `s`), then the
whole `[0-7]` run (a shorter candidate is followed by another octal digit,
never the required `s`), then `s`. -/
def chmodSetuidCI (s : List Char) : Bool :=
  (do
    let s1 ← stripCI "chmod".data s
    let s2 ← spacesPlus s1
    let s3 := s2.dropWhile (fun c => '0' ≤ c ∧ c ≤ '7')
    let _ ← stripCI "s".data s3
    pure ()).isSome

/-- `(?:sudo|su\s|setuid|setgid|chmod\s+[0-7]*s)`. -/
def sigPriv (t : List Char) : Bool :=
  searchB (fun s => litCIb "sudo" s || litSpcCI "su" s || litCIb "setuid" s ||
    litCIb "setgid" s || chmodSetuidCI s) t

def sigMatch : SigId → String → Bool
  | .sql_injection, t => sigSql t.data
  | .xss, t => sigXss t.data
  | .command_injection, t => sigCmd t.data
  | .file_inclusion, t => sigFileInc t.data
  | .bruteforce, t => sigBrute t.data
  | .privilege_escalation, t => sigPriv t.data

/-! ### Enrichment (`LogParser._enhance_log_analysis` and
`_identify_ip_relationships`) -/

/-- The five enrichment columns, all initialised to `None` by
`_enhance_log_analysis` before any row is processed. -/
structure EnrichFields where
  attacker_ip : Option String := none
  target_ip : Option String := none
  threat_type : Option String := none
  severity : Option String := none
  threat_description : Option String := none
deriving DecidableEq, Repr

/-- The per-match assignment rule: `firewall_block` fills attacker+target,
`web_attack` fills label+attacker, every other pattern fills the single
attacker group and the friendly name (the two `len(match.groups()) >= 2`
tests are statically true for the two named patterns). -/
def applyAttack (a : AttackId) (g : AttackGroups) (f : EnrichFields) : EnrichFields :=
  if a = .firewall_block then
    { f with attacker_ip := some g.g1, target_ip := g.g2, threat_type := some "防火墙阻断" }
  else if a = .web_attack then
    { f with attacker_ip := g.g2, threat_type := some g.g1 }
  else
    { f with attacker_ip := some g.g1, threat_type := some (friendlyName a) }

/-- The attack-pattern pass: first matching pattern in catalog order wins,
then `break`. -/
def attackPass (t : String) : List AttackId → Option (AttackId × AttackGroups)
  | [] => none
  | a :: rest =>
    match attackMatch a t with
    | some g => some (a, g)
    | none => attackPass t rest

/-- The threat-signature pass: first matching signature in catalog order
wins, then `break`. -/
def sigPass (t : String) : List SigId → Option SigId
  | [] => none
  | g :: rest => if sigMatch g t then some g else sigPass t rest

/-- `re.findall(r'\b(?:\d{1,3}\.){3}\d{1,3}\b', …)`: `\d{1,3}` must consume
its whole run (1–3 digits), the leading `\b` requires a non-word previous
character, the trailing `\b` a non-word next character. -/
def fbOctetDot (s : List Char) : Option (List Char × List Char) :=
  let r := s.takeWhile Char.isDigit
  if r.isEmpty || decide (3 < r.length) then none
  else
    match s.dropWhile Char.isDigit with
    | '.' :: rest => some (r, rest)
    | _ => none

def fbIPAt (prevWord : Bool) (s : List Char) : Option (List Char × List Char) :=
  if prevWord then none
  else
    match fbOctetDot s with
    | none => none
    | some (r1, s1) =>
      match fbOctetDot s1 with
      | none => none
      | some (r2, s2) =>
        match fbOctetDot s2 with
        | none => none
        | some (r3, s3) =>
          let r4 := s3.takeWhile Char.isDigit
          if r4.isEmpty || decide (3 < r4.length) then none
          else
            match s3.dropWhile Char.isDigit with
            | [] => some (r1 ++ '.' :: r2 ++ '.' :: r3 ++ '.' :: r4, [])
            | c :: rest2 =>
              if isWordAscii c then none
              else some (r1 ++ '.' :: r2 ++ '.' :: r3 ++ '.' :: r4, c :: rest2)

def findallGo : Nat → Bool → List Char → List String
  | _, _, [] => []
  | 0, _, _ => []
  | fuel + 1, pw, c :: rest =>
    match fbIPAt pw (c :: rest) with
    | some (lit, rest2) => String.mk lit :: findallGo fuel true rest2
    | none => findallGo fuel (isWordAscii c) rest

/-- All (non-overlapping, leftmost) findall matches. -/
def findallIPs (t : List Char) : List String := findallGo (t.length + 1) false t

def srcKws : List String := ["from", "source", "src", "attacker"]
def dstKws : List String := ["to", "dest", "destination", "target"]
def atkKws : List String :=
  ["attack", "hack", "exploit", "scan", "brute", "force", "failed", "rejected",
   "blocked", "denied", "malicious"]
def vicKws : List String := ["victim", "compromised", "targeted"]

/-- `re.search('(?:kw1|kw2|…)', …, re.IGNORECASE)`. -/
def containsAnyCI (kws : List String) (t : List Char) : Bool :=
  searchB (fun s => kws.any (fun k => litCIb k s)) t

/-- `re.search(rf'(?:kw…).*?{re.escape(ip)}', …)`: some keyword occurrence
followed, within the same line, by the escaped address literal. -/
def kwThenIP (kws : List String) (ip : String) (t : List Char) : Bool :=
  searchB (fun s => kws.any (fun k =>
    match stripCI k.data s with
    | some rest => lazyDotB (fun s2 => IPMaskerM.litAt ip.data s2) rest
    | none => false)) t

/-- First loop of the multi-address branch of
`_identify_ip_relationships`: when a source keyword is present, the first
address co-occurring after one fills the attacker slot if it is empty (the
`break` sits inside the `is None` guard, so a loop that finds a co-occurring
address while the slot is already filled changes nothing — equivalent to the
guarded first hit). -/
def fbSrcAssign (t : List Char) (ips : List String) (f : EnrichFields) : EnrichFields :=
  if containsAnyCI srcKws t then
    match ips.find? (fun ip => kwThenIP srcKws ip t) with
    | some ip => if f.attacker_ip.isNone then { f with attacker_ip := some ip } else f
    | none => f
  else f

/-- Second loop of the multi-address branch: destination keyword / target
slot. -/
def fbDstAssign (t : List Char) (ips : List String) (f : EnrichFields) : EnrichFields :=
  if containsAnyCI dstKws t then
    match ips.find? (fun ip => kwThenIP dstKws ip t) with
    | some ip => if f.target_ip.isNone then { f with target_ip := some ip } else f
    | none => f
  else f

/-- Default of the multi-address branch: when neither slot got filled, the
first address becomes the attacker and the second (if any) the target. -/
def fbDefaultAssign (ips : List String) (f : EnrichFields) : EnrichFields :=
  if f.attacker_ip.isNone && f.target_ip.isNone then
    { f with attacker_ip := ips.head?,
             target_ip := if 1 < ips.length then ips[1]? else none }
  else f

/-- Single-address branch: attack keywords assign the attacker slot, else
victim keywords assign the target slot. -/
def fbSingleAssign (t : List Char) (ip : String) (f : EnrichFields) : EnrichFields :=
  if containsAnyCI atkKws t then
    if f.attacker_ip.isNone then { f with attacker_ip := some ip } else f
  else if containsAnyCI vicKws t then
    if f.target_ip.isNone then { f with target_ip := some ip } else f
  else f

/-- `LogParser._identify_ip_relationships`. -/
def identifyIPRelationships (t : List Char) (f : EnrichFields) : EnrichFields :=
  let ips := findallIPs t
  if ips.length < 1 then f
  else if 2 ≤ ips.length then
    fbDefaultAssign ips (fbDstAssign t ips (fbSrcAssign t ips f))
  else fbSingleAssign t (ips.headD "") f

/-- The attack-pattern pass of `_enhance_log_analysis` applied to one row's
fields. -/
def attackStep (t : String) (f : EnrichFields) : EnrichFields :=
  match attackPass t attackOrder with
  | some (a, g) => applyAttack a g f
  | none => f

/-- The threat-signature pass: the first matching signature sets `severity`
and `threat_description`. -/
def sigStep (t : String) (f : EnrichFields) : EnrichFields :=
  match sigPass t sigOrder with
  | some g => { f with severity := some (sigSeverity g),
                       threat_description := some (sigDescription g) }
  | none => f

/-- The guarded fallback call
(`if attacker_ip is None or target_ip is None: _identify_ip_relationships`). -/
def finalStep (t : String) (f : EnrichFields) : EnrichFields :=
  if f.attacker_ip.isNone || f.target_ip.isNone then identifyIPRelationships t.data f
  else f

/-- Enrichment of one row's text: the attack-pattern pass, the independent
threat-signature pass, then the fallback IP-relationship inference when the
attacker or the target slot is still unset (all five columns start as
`None`). -/
def enhanceText (t : String) : EnrichFields :=
  finalStep t (sigStep t (attackStep t {}))

/-- One enriched DataFrame row. -/
structure ERow where
  raw_log : Option String
  timestamp : Option String
  message : Option String
  fields : EnrichFields
deriving DecidableEq, Repr

/-- `LogParser._enhance_log_analysis`: the analysed text column is `raw_log`
when present, else `message`; both parsed shapes always hold strings, so the
`isinstance(log_line, str)` guard never skips. -/
def enhance : ParsedDF → List ERow
  | .rawDF lines => lines.map (fun l => ⟨some l, none, none, enhanceText l⟩)
  | .tsDF es => es.map (fun e => ⟨none, some e.timestamp, some e.message, enhanceText e.message⟩)

/-! ### Summary aggregation (`LogParser.get_security_summary`) -/

/-- The summary dictionary.  The two tally dictionaries are keyed by
`Option String` because `row.get('severity', …)`/`row.get('threat_type', …)`
return the stored value — `None` included — whenever the column exists; the
textual defaults only apply to a missing column, which cannot happen on an
enhanced DataFrame. -/
structure SecuritySummary where
  total_entries : Nat
  identified_threats : Nat
  unique_attackers : List String
  unique_targets : List String
  threat_types : List (Option String × Nat)
  severity_counts : List (Option String × Nat)
deriving DecidableEq, Repr

/-- Python `set.add` (iteration order is irrelevant to every claim; the set is
modelled as a deduplicating list). -/
def addToSet (l : List String) (x : String) : List String :=
  if l.contains x then l else l ++ [x]

/-- `d[k] = d.get(k, 0) + 1`. -/
def bump (m : List (Option String × Nat)) (k : Option String) : List (Option String × Nat) :=
  PyDict.assign m k ((PyDict.lookup m k).getD 0 + 1)

def summaryStep (acc : SecuritySummary) (r : ERow) : SecuritySummary :=
  if r.fields.threat_type.isSome || r.fields.threat_description.isSome then
    { acc with
      identified_threats := acc.identified_threats + 1,
      unique_attackers :=
        match r.fields.attacker_ip with
        | some ip => addToSet acc.unique_attackers ip
        | none => acc.unique_attackers,
      unique_targets :=
        match r.fields.target_ip with
        | some ip => addToSet acc.unique_targets ip
        | none => acc.unique_targets,
      threat_types := bump acc.threat_types r.fields.threat_type,
      severity_counts := bump acc.severity_counts r.fields.severity }
  else acc

/-- Stable insertion step for the final
`sorted(threat_types.items(), key=count, reverse=True)` (Python's sort is
stable; an element moves before exactly the strictly smaller counts). -/
def insertDesc (x : Option String × Nat) :
    List (Option String × Nat) → List (Option String × Nat)
  | [] => [x]
  | y :: rest => if y.2 < x.2 then x :: y :: rest else y :: insertDesc x rest

def sortCountDesc (l : List (Option String × Nat)) : List (Option String × Nat) :=
  l.foldl (fun acc x => insertDesc x acc) []

/-- `LogParser.get_security_summary`.  `severity_counts` starts with the four
pre-seeded buckets; `threat_types` starts empty. -/
def get_security_summary (rows : List ERow) : SecuritySummary :=
  let base : SecuritySummary :=
    ⟨rows.length, 0, [], [], [],
     [(some "高", 0), (some "中", 0), (some "低", 0), (some "未知", 0)]⟩
  let s := rows.foldl summaryStep base
  { s with threat_types := sortCountDesc s.threat_types }

/-! ### Delimiter detection (`LogParser._parse_csv` fallback).

Every loop iteration first calls `csv.Sniffer().sniff(sample,
delimiters=delimiter)`, an external library heuristic that *raises*
`csv.Error` whenever it cannot confirm the offered candidate on the sample;
the exception is uncaught inside `_parse_csv`, so the fallback aborts at the
first rejected candidate without selecting anything.  The sniffer's verdict
on each candidate is therefore an input of the embedding (`sniffOk`), in the
same way the disk outcomes are inputs of the masker embedding.  When the
sniffer confirms a candidate, the dialect it returns carries that delimiter,
and `csv.reader` over the sampled lines is modelled as a plain per-line split
on it (quoting plays no role in the selection logic under study). -/

def splitOnChar (sep : Char) : List Char → List (List Char)
  | [] => [[]]
  | c :: rest =>
    if c = sep then [] :: splitOnChar sep rest
    else
      match splitOnChar sep rest with
      | g :: gs => (c :: g) :: gs
      | [] => [[c]]

/-- Python `str.splitlines()` for `\n`-separated text: no empty trailing
piece after a final newline. -/
def pySplitlines (s : String) : List String :=
  let ls := (splitOnChar '\n' s.data).map String.mk
  match ls.getLast? with
  | some last => if last = "" then ls.dropLast else ls
  | none => ls

/-- The candidate delimiters, in test order. -/
def csvDelims : List Char := [',', ';', '\t', '|']

/-- `max(len(row) for row in reader)` over the sampled lines. -/
def maxColumns (d : Char) (sample : String) : Nat :=
  ((pySplitlines sample).map (fun l => (splitOnChar d l.data).length)).foldl max 0

/-- The selection loop: `best_delimiter = ','`, `max_columns = 0`; each
iteration sniffs its candidate — a rejected candidate raises, aborting the
whole fallback (`Except.error`) — and otherwise keeps the candidate on
strictly more columns. -/
def bestDelimiterLoop (sniffOk : Char → Bool) (sample : String) :
    List Char → Char × Nat → Except Unit (Char × Nat)
  | [], acc => Except.ok acc
  | d :: rest, acc =>
    if sniffOk d then
      let c := maxColumns d sample
      bestDelimiterLoop sniffOk sample rest (if c > acc.2 then (d, c) else acc)
    else Except.error ()

/-- `f.read(4096)`. -/
def csvSample (content : String) : String := String.mk (content.data.take 4096)

/-- The fallback path of `_parse_csv`: sample the first 4KB and run the
selection loop over the four candidates; `Except.error` is the uncaught
`csv.Error` of the first rejected candidate. -/
def csvFallbackDelimiter (sniffOk : Char → Bool) (content : String) : Except Unit Char :=
  (bestDelimiterLoop sniffOk (csvSample content) csvDelims (',', 0)).map Prod.fst

/-- Spec-side reading of "the candidate yielding the most consistent column
count across the sampled lines": the score of a candidate is the largest
number of sampled lines agreeing on one column count, and the best candidate
(first wins ties) maximises that score. -/
def modeConsistency (d : Char) (sample : String) : Nat :=
  let counts := (pySplitlines sample).map (fun l => (splitOnChar d l.data).length)
  (counts.map (fun c => (counts.filter (fun x => x = c)).length)).foldl max 0

def mostConsistentDelimiter (sample : String) : Char :=
  (csvDelims.foldl (fun acc d =>
    let c := modeConsistency d sample
    if c > acc.2 then (d, c) else acc) (',', 0)).1

/-! ### Spec-side views used by the claims -/

/-- All attack patterns matching a text, in catalog order. -/
def matchingAttacks (t : String) : List AttackId :=
  attackOrder.filter (fun a => (attackMatch a t).isSome)

/-- All threat signatures matching a text, in catalog order. -/
def matchingSigs (t : String) : List SigId :=
  sigOrder.filter (fun g => sigMatch g t)

/-- The `threat_type` label assigned by a pattern (first group for
`web_attack`, the fixed label for `firewall_block`, the friendly name
otherwise). -/
def attackTypeLabel (a : AttackId) (t : String) : String :=
  if a = .firewall_block then "防火墙阻断"
  else if a = .web_attack then
    match attackMatch a t with
    | some g => g.g1
    | none => ""
  else friendlyName a

/-- The line used to exhibit the severity-bucket slip of
`get_security_summary` (its only matching attack pattern is
`ssh_failed_login`; no threat signature matches, so `severity` stays unset). -/
def c2Line : String := "Failed password for root from 1.2.3.4"

/-- The delimiter-detection sample on which maximum-column selection and
most-consistent selection disagree. -/
def c6Sample : String := "a,b,c\nd,e,f\ng,h,i\nw;x,u;y,t;z;1;2;3;4"

end LogParserM


namespace LogParserM

/-- Witness input for the line-oriented parse: ten ISO-stamped lines (so the
convention is detected), one continuation line, one more stamped line. -/
def c4Lines : List String :=
  ["2023-01-01T00:00:00 a\n", "2023-01-01T00:00:01 b\n", "2023-01-01T00:00:02 c\n",
   "2023-01-01T00:00:03 d\n", "2023-01-01T00:00:04 e\n", "2023-01-01T00:00:05 f\n",
   "2023-01-01T00:00:06 g\n", "2023-01-01T00:00:07 h\n", "2023-01-01T00:00:08 i\n",
   "2023-01-01T00:00:09 j\n", "continuation line\n", "2023-01-01T00:00:10 k\n"]

end LogParserM

/-! ## Theorems -/

namespace PyDict

theorem lookup_assign_self {α β : Type} [DecidableEq α] (m : List (α × β)) (k : α) (v : β) :
    lookup (assign m k v) k = some v := by
  induction m with
  | nil => simp [assign, lookup]
  | cons p rest ih =>
    obtain ⟨k2, w⟩ := p
    by_cases h : k2 = k <;> simp [assign, lookup, h, ih]

theorem lookup_assign_ne {α β : Type} [DecidableEq α] (m : List (α × β)) (k k' : α) (v : β)
    (h : k ≠ k') : lookup (assign m k v) k' = lookup m k' := by
  induction m with
  | nil => simp [assign, lookup, h]
  | cons p rest ih =>
    obtain ⟨k2, w⟩ := p
    by_cases h2 : k2 = k
    · subst h2; simp [assign, lookup, h]
    · simp [assign, lookup, h2, ih]

theorem lookup_eq_none_iff {α β : Type} [DecidableEq α] (m : List (α × β)) (k : α) :
    lookup m k = none ↔ k ∉ m.map Prod.fst := by
  induction m with
  | nil => simp [lookup]
  | cons p rest ih =>
    obtain ⟨k2, w⟩ := p
    by_cases h : k2 = k
    · subst h; simp [lookup]
    · simp only [lookup, if_neg h, List.map_cons, List.mem_cons, not_or, ih]
      exact ⟨fun hm => ⟨fun hk => h hk.symm, hm⟩, fun hm => hm.2⟩

theorem assign_of_not_mem {α β : Type} [DecidableEq α] (m : List (α × β)) (k : α) (v : β)
    (h : k ∉ m.map Prod.fst) : assign m k v = m ++ [(k, v)] := by
  induction m with
  | nil => simp [assign]
  | cons p rest ih =>
    obtain ⟨k2, w⟩ := p
    simp only [List.map_cons, List.mem_cons] at h
    push_neg at h
    have hne : ¬k2 = k := fun hk => h.1 hk.symm
    simp [assign, hne, ih h.2]

end PyDict

namespace IPMaskerM

/-- Claim C1: for every IPv4 literal `ip`, `unmask_ip (mask_ip ip) = ip`, and a
repeated `mask_ip ip` in the same session returns the same pseudonym without
changing the state (the first call on a fresh address inserts the pair into
both mapping directions; the repeat hits the cache).  The session is assumed
to satisfy the mapping invariant of §3 (`InvF`), which holds in particular in
every session reachable from an empty store. -/
theorem claim1_mask_unmask_roundtrip (s : MaskState) (ip : String)
    (_hip : isIPv4Lit ip = true) (hinv : InvF s) :
    unmask_ip (mask_ip s ip).2 (mask_ip s ip).1 = ip ∧
    mask_ip (mask_ip s ip).2 ip = mask_ip s ip ∧
    (PyDict.lookup s.mapping ip = none →
      PyDict.lookup (mask_ip s ip).2.mapping ip = some (mask_ip s ip).1 ∧
      PyDict.lookup (mask_ip s ip).2.reverse_mapping (mask_ip s ip).1 = some ip) := by
  cases h : PyDict.lookup s.mapping ip with
  | some m =>
    have hr := hinv ip m h
    refine ⟨?_, ?_, ?_⟩
    · simp [mask_ip, h, unmask_ip, hr]
    · simp [mask_ip, h]
    · intro hc; simp [h] at hc
  | none =>
    refine ⟨?_, ?_, ?_⟩
    · simp [mask_ip, h, unmask_ip, PyDict.lookup_assign_self]
    · simp [mask_ip, h, PyDict.lookup_assign_self]
    · intro _
      simp [mask_ip, h, PyDict.lookup_assign_self]

theorem claim1_witness :
    isIPv4Lit "203.0.113.7" = true ∧ InvF emptyState ∧
      unmask_ip (mask_ip emptyState "203.0.113.7").2
        (mask_ip emptyState "203.0.113.7").1 = "203.0.113.7" := by
  have hinv : InvF emptyState := by
    intro k v h
    simp [emptyState, PyDict.lookup] at h
  exact ⟨by decide, hinv,
    (claim1_mask_unmask_roundtrip emptyState "203.0.113.7" (by decide) hinv).1⟩

/-- Claim C3: a pseudonym synthesized for a fresh address lands in the /16
block selected by the class of the original's first octet, with third octet
`size % 256` and fourth octet `size / 256 % 256` (size = current mapping
size). -/
theorem claim3_pseudonym_class_block (s : MaskState) (ip : String)
    (_hip : isIPv4Lit ip = true) (hm : PyDict.lookup s.mapping ip = none) :
    ((1 ≤ first_octet ip ∧ first_octet ip ≤ 126) →
      (mask_ip s ip).1 =
        "10.0." ++ toString (s.mapping.length % 256) ++ "." ++
          toString (s.mapping.length / 256 % 256)) ∧
    ((128 ≤ first_octet ip ∧ first_octet ip ≤ 191) →
      (mask_ip s ip).1 =
        "172.16." ++ toString (s.mapping.length % 256) ++ "." ++
          toString (s.mapping.length / 256 % 256)) ∧
    ((192 ≤ first_octet ip ∧ first_octet ip ≤ 223) →
      (mask_ip s ip).1 =
        "192.168." ++ toString (s.mapping.length % 256) ++ "." ++
          toString (s.mapping.length / 256 % 256)) ∧
    (¬(1 ≤ first_octet ip ∧ first_octet ip ≤ 126) →
     ¬(128 ≤ first_octet ip ∧ first_octet ip ≤ 191) →
     ¬(192 ≤ first_octet ip ∧ first_octet ip ≤ 223) →
      (mask_ip s ip).1 =
        "169.254." ++ toString (s.mapping.length % 256) ++ "." ++
          toString (s.mapping.length / 256 % 256)) := by
  refine ⟨fun h => ?_, fun h => ?_, fun h => ?_, fun h1 h2 h3 => ?_⟩
  · simp only [mask_ip, hm, maskedFor, counterOctets, if_pos h]
    simp [String.append_assoc]
  · have h1 : ¬(1 ≤ first_octet ip ∧ first_octet ip ≤ 126) := by omega
    simp only [mask_ip, hm, maskedFor, counterOctets, if_neg h1, if_pos h]
    simp [String.append_assoc]
  · have h1 : ¬(1 ≤ first_octet ip ∧ first_octet ip ≤ 126) := by omega
    have h2 : ¬(128 ≤ first_octet ip ∧ first_octet ip ≤ 191) := by omega
    simp only [mask_ip, hm, maskedFor, counterOctets, if_neg h1, if_neg h2, if_pos h]
    simp [String.append_assoc]
  · simp only [mask_ip, hm, maskedFor, counterOctets, if_neg h1, if_neg h2, if_neg h3]
    simp [String.append_assoc]

theorem claim3_witness :
    isIPv4Lit "8.8.8.8" = true ∧
    PyDict.lookup emptyState.mapping "8.8.8.8" = none ∧
    (mask_ip emptyState "8.8.8.8").1 = "10.0." ++ toString (0 % 256) ++ "." ++
      toString (0 / 256 % 256) :=
  ⟨by decide, by decide,
    (claim3_pseudonym_class_block emptyState "8.8.8.8" (by decide) (by decide)).1
      (by decide)⟩

/-- Claim C8: when the durable write of a freshly-inserted pair fails, the
error is surfaced, but the in-memory update is not rolled back: both the
forward and the reverse entry for the new pseudonym remain, a later
`mask_ip` of the same address succeeds from the cache (without touching
storage), and the in-memory effect is exactly the one of a successful call. -/
theorem claim8_storage_failure_no_rollback (s : MaskState) (ip : String)
    (hm : PyDict.lookup s.mapping ip = none) :
    (mask_ip_withSave false s ip).1 = Except.error () ∧
    PyDict.lookup (mask_ip_withSave false s ip).2.mapping ip =
      some (maskedFor (first_octet ip) s.mapping.length) ∧
    PyDict.lookup (mask_ip_withSave false s ip).2.reverse_mapping
      (maskedFor (first_octet ip) s.mapping.length) = some ip ∧
    (∀ b : Bool, mask_ip_withSave b (mask_ip_withSave false s ip).2 ip =
      (Except.ok (maskedFor (first_octet ip) s.mapping.length),
        (mask_ip_withSave false s ip).2)) ∧
    mask_ip s ip = (maskedFor (first_octet ip) s.mapping.length,
      (mask_ip_withSave false s ip).2) := by
  refine ⟨?_, ?_, ?_, ?_, ?_⟩
  · simp [mask_ip_withSave, hm]
  · simp [mask_ip_withSave, hm, PyDict.lookup_assign_self]
  · simp [mask_ip_withSave, hm, PyDict.lookup_assign_self]
  · intro b
    simp [mask_ip_withSave, hm, PyDict.lookup_assign_self]
  · simp [mask_ip, mask_ip_withSave, hm]

theorem claim8_witness :
    PyDict.lookup emptyState.mapping "203.0.113.7" = none ∧
    (mask_ip_withSave false emptyState "203.0.113.7").1 = Except.error () ∧
    (∀ b : Bool, mask_ip_withSave b (mask_ip_withSave false emptyState "203.0.113.7").2
        "203.0.113.7" =
      (Except.ok (maskedFor (first_octet "203.0.113.7") 0),
        (mask_ip_withSave false emptyState "203.0.113.7").2)) :=
  ⟨by decide,
    (claim8_storage_failure_no_rollback emptyState "203.0.113.7" (by decide)).1,
    (claim8_storage_failure_no_rollback emptyState "203.0.113.7" (by decide)).2.2.2.1⟩

/-- Claim C10: a missing, unreadable or unparsable mapping file never makes the
constructor fail; it yields exactly the state of a construction over a fresh
(empty) store, so every subsequent operation behaves as on a fresh store. -/
theorem claim10_bad_disk_fresh_start (maxM : Nat) :
    initMasker .missing maxM = initMasker (.stored []) maxM ∧
    initMasker .unreadable maxM = initMasker (.stored []) maxM ∧
    initMasker .missing maxM = emptyState ∧
    (∀ ip, mask_ip (initMasker .missing maxM) ip =
      mask_ip (initMasker (.stored []) maxM) ip) ∧
    (∀ t, mask_text (initMasker .unreadable maxM) t =
      mask_text (initMasker (.stored []) maxM) t) := by
  refine ⟨rfl, rfl, ?_, fun ip => rfl, fun t => rfl⟩
  simp [initMasker, load_mapping, emptyState]

end IPMaskerM

namespace IPMaskerM

theorem maskTextGo_id (s : MaskState) :
    ∀ (cs : List Char) (fuel : Nat) (prevD : Bool),
      hasIPMatch prevD cs = false → maskTextGo fuel prevD cs s = (cs, s) := by
  intro cs
  induction cs with
  | nil => intro fuel prevD _; cases fuel <;> rfl
  | cons c rest ih =>
    intro fuel prevD h
    simp only [hasIPMatch, Bool.or_eq_false_iff] at h
    cases fuel with
    | zero => rfl
    | succ fuel =>
      have hnone : ipMatchAt prevD (c :: rest) = none := by
        cases hm : ipMatchAt prevD (c :: rest) with
        | none => rfl
        | some v => rw [hm] at h; simp at h
      simp only [maskTextGo, hnone]
      rw [ih fuel c.isDigit h.2]

theorem mask_text_id (s : MaskState) (t : String)
    (h : hasIPMatch false t.data = false) : mask_text s t = (t, s) := by
  have hgo := maskTextGo_id s t.data (t.data.length + 1) false h
  simp only [mask_text, hgo]

theorem unmaskGo_id (s : MaskState) :
    ∀ (cs : List Char) (fuel : Nat),
      (∀ m ∈ s.reverse_mapping.map Prod.fst, occursIn m.data cs = false) →
      unmaskGo s fuel cs = cs := by
  intro cs
  induction cs with
  | nil => intro fuel _; cases fuel <;> rfl
  | cons c rest ih =>
    intro fuel h
    cases fuel with
    | zero => rfl
    | succ fuel =>
      have hfind : (s.reverse_mapping.map Prod.fst).find?
          (fun m => litAt m.data (c :: rest)) = none := by
        apply List.find?_eq_none.mpr
        intro m hm
        have := h m hm
        simp only [occursIn, Bool.or_eq_false_iff] at this
        simp [this.1]
      simp only [unmaskGo, hfind]
      rw [ih fuel]
      intro m hm
      have := h m hm
      simp only [occursIn, Bool.or_eq_false_iff] at this
      exact this.2

/-- Claim C7 (amended): on text with no `IP_PATTERN` match, `mask_text` is the
identity for every mapping state; `unmask_text` is additionally the identity
provided no currently-known pseudonym occurs as a raw substring of the text
(the pseudonym alternation of `unmask_text` carries no digit-boundary guards,
so an IP-free text can still embed a pseudonym inside a longer digit
context). -/
theorem claim7_amended (s : MaskState) (t : String)
    (h : hasIPMatch false t.data = false) :
    mask_text s t = (t, s) ∧
    ((∀ m ∈ s.reverse_mapping.map Prod.fst, occursIn m.data t.data = false) →
      unmask_text s t = t) := by
  refine ⟨mask_text_id s t h, fun hocc => ?_⟩
  unfold unmask_text
  split
  · rfl
  · rw [unmaskGo_id s t.data (t.data.length + 1) hocc]

/-- Claim C7 (counterexample): `"910.0.0.0"` contains no IPv4 literal under
the bounded `IP_PATTERN` (`910` is not a valid octet and the inner digits are
blocked by the lookbehind), yet after masking `1.2.3.4` (pseudonym
`10.0.0.0`) `unmask_text` rewrites it to `"91.2.3.4"`. -/
theorem claim7_counterexample :
    hasIPMatch false "910.0.0.0".data = false ∧
    unmask_text oneMaskState "910.0.0.0" = "91.2.3.4" ∧
    "91.2.3.4" ≠ "910.0.0.0" := by decide

theorem claim7_witness :
    mask_text oneMaskState "no addresses here" = ("no addresses here", oneMaskState) ∧
    unmask_text oneMaskState "no addresses here" = "no addresses here" :=
  ⟨(claim7_amended oneMaskState "no addresses here" (by decide)).1,
   (claim7_amended oneMaskState "no addresses here" (by decide)).2 (by decide)⟩

end IPMaskerM

namespace IPMaskerM

theorem repr_all_digit (a : Nat) (ha : a < 256) :
    (Nat.repr a).data.all Char.isDigit = true :=
  (by decide : ∀ x : Fin 256, (Nat.repr x.val).data.all Char.isDigit = true) ⟨a, ha⟩

theorem repr_digitVal (a : Nat) (ha : a < 256) : digitVal (Nat.repr a).data = a :=
  (by decide : ∀ x : Fin 256, digitVal (Nat.repr x.val).data = x.val) ⟨a, ha⟩

theorem repr_no_dot (a : Nat) (ha : a < 256) : ∀ c ∈ (Nat.repr a).data, c ≠ '.' := by
  intro c hc hceq
  have hall := repr_all_digit a ha
  simp only [List.all_eq_true] at hall
  have hd := hall c hc
  rw [hceq] at hd
  exact absurd hd (by decide)

theorem noDotSplit :
    ∀ (l1 l2 r1 r2 : List Char), (∀ c ∈ l1, c ≠ '.') → (∀ c ∈ l2, c ≠ '.') →
      l1 ++ '.' :: r1 = l2 ++ '.' :: r2 → l1 = l2 ∧ r1 = r2 := by
  intro l1
  induction l1 with
  | nil =>
    intro l2 r1 r2 _ h2 h
    cases l2 with
    | nil => simpa using h
    | cons c l2' =>
      simp only [List.nil_append, List.cons_append, List.cons.injEq] at h
      exact absurd h.1.symm (h2 c (by simp))
  | cons a l1' ih =>
    intro l2 r1 r2 h1 h2 h
    cases l2 with
    | nil =>
      simp only [List.cons_append, List.nil_append, List.cons.injEq] at h
      exact absurd h.1 (h1 a (by simp))
    | cons c l2' =>
      simp only [List.cons_append, List.cons.injEq] at h
      obtain ⟨hac, htail⟩ := h
      have hih := ih l2' r1 r2 (fun x hx => h1 x (by simp [hx]))
        (fun x hx => h2 x (by simp [hx])) htail
      exact ⟨by rw [hac, hih.1], hih.2⟩

theorem counterOctets_inj (i j : Nat) (hi : i < 65536) (hj : j < 65536)
    (h : (counterOctets i).data = (counterOctets j).data) : i = j := by
  have hd : ((Nat.repr (i % 256)).data ++ ['.']) ++ (Nat.repr (i / 256 % 256)).data
      = ((Nat.repr (j % 256)).data ++ ['.']) ++ (Nat.repr (j / 256 % 256)).data := h
  rw [List.append_assoc, List.append_assoc] at hd
  have hsplit := noDotSplit _ _ _ _ (repr_no_dot _ (by omega)) (repr_no_dot _ (by omega)) hd
  have hs1 : (Nat.repr (i % 256)).data = (Nat.repr (j % 256)).data := hsplit.1
  have hs2 : (Nat.repr (i / 256 % 256)).data = (Nat.repr (j / 256 % 256)).data := hsplit.2
  have hv1 : i % 256 = j % 256 := by
    rw [← repr_digitVal (i % 256) (by omega), ← repr_digitVal (j % 256) (by omega), hs1]
  have hv2 : i / 256 % 256 = j / 256 % 256 := by
    rw [← repr_digitVal (i / 256 % 256) (by omega), ← repr_digitVal (j / 256 % 256) (by omega),
      hs2]
  omega

theorem strcat_cancel (b x y : String) (h : b ++ x = b ++ y) : x.data = y.data := by
  have hd : b.data ++ x.data = b.data ++ y.data := congrArg String.data h
  exact List.append_cancel_left hd

theorem maskedFor_inj (fo1 fo2 i j : Nat) (hi : i < 65536) (hj : j < 65536)
    (h : maskedFor fo1 i = maskedFor fo2 j) : i = j := by
  unfold maskedFor at h
  split_ifs at h <;>
    first
      | exact counterOctets_inj i j hi hj (strcat_cancel _ _ _ h)
      | exact absurd (show (some '0' : Option Char) = some '7' from
          congrArg (fun s : String => s.data.get? 1) h) (by decide)
      | exact absurd (show (some '0' : Option Char) = some '9' from
          congrArg (fun s : String => s.data.get? 1) h) (by decide)
      | exact absurd (show (some '0' : Option Char) = some '6' from
          congrArg (fun s : String => s.data.get? 1) h) (by decide)
      | exact absurd (show (some '7' : Option Char) = some '0' from
          congrArg (fun s : String => s.data.get? 1) h) (by decide)
      | exact absurd (show (some '7' : Option Char) = some '9' from
          congrArg (fun s : String => s.data.get? 1) h) (by decide)
      | exact absurd (show (some '7' : Option Char) = some '6' from
          congrArg (fun s : String => s.data.get? 1) h) (by decide)
      | exact absurd (show (some '9' : Option Char) = some '0' from
          congrArg (fun s : String => s.data.get? 1) h) (by decide)
      | exact absurd (show (some '9' : Option Char) = some '7' from
          congrArg (fun s : String => s.data.get? 1) h) (by decide)
      | exact absurd (show (some '9' : Option Char) = some '6' from
          congrArg (fun s : String => s.data.get? 1) h) (by decide)
      | exact absurd (show (some '6' : Option Char) = some '0' from
          congrArg (fun s : String => s.data.get? 1) h) (by decide)
      | exact absurd (show (some '6' : Option Char) = some '7' from
          congrArg (fun s : String => s.data.get? 1) h) (by decide)
      | exact absurd (show (some '6' : Option Char) = some '9' from
          congrArg (fun s : String => s.data.get? 1) h) (by decide)

theorem good_empty : GoodState emptyState := by
  refine ⟨List.nodup_nil, rfl, by simp [emptyState], ?_⟩
  intro i h
  simp [emptyState] at h

theorem good_mask (s : MaskState) (ip : String) (hg : GoodState s)
    (hlt : s.mapping.length < 65536) :
    GoodState (mask_ip s ip).2 ∧ (mask_ip s ip).2.mapping.length ≤ s.mapping.length + 1 := by
  obtain ⟨hkeys, hrev, hlen, hidx⟩ := hg
  cases hl : PyDict.lookup s.mapping ip with
  | some m =>
    simp only [mask_ip, hl]
    exact ⟨⟨hkeys, hrev, hlen, hidx⟩, by omega⟩
  | none =>
    have hnotmem : ip ∉ s.mapping.map Prod.fst := (PyDict.lookup_eq_none_iff _ _).mp hl
    have hmap : PyDict.assign s.mapping ip (maskedFor (first_octet ip) s.mapping.length)
        = s.mapping ++ [(ip, maskedFor (first_octet ip) s.mapping.length)] :=
      PyDict.assign_of_not_mem _ _ _ hnotmem
    have hfresh : maskedFor (first_octet ip) s.mapping.length ∉ s.mapping.map Prod.snd := by
      intro hmem
      rw [List.mem_iff_getElem] at hmem
      obtain ⟨k, hk, hvk⟩ := hmem
      rw [List.getElem_map] at hvk
      have hk2 : k < s.mapping.length := by simpa using hk
      have he := hidx k hk2
      rw [he] at hvk
      have := maskedFor_inj _ _ _ _ (by omega) (by omega) hvk
      omega
    have hrevkeys : maskedFor (first_octet ip) s.mapping.length
        ∉ s.reverse_mapping.map Prod.fst := by
      rw [hrev]
      have hmm : (s.mapping.map (fun kv => (kv.2, kv.1))).map Prod.fst
          = s.mapping.map Prod.snd := by
        rw [List.map_map]; rfl
      rw [hmm]
      exact hfresh
    have hrev2 : PyDict.assign s.reverse_mapping
          (maskedFor (first_octet ip) s.mapping.length) ip
        = s.reverse_mapping ++ [(maskedFor (first_octet ip) s.mapping.length, ip)] :=
      PyDict.assign_of_not_mem _ _ _ hrevkeys
    have hstate : (mask_ip s ip).2 =
        ⟨s.mapping ++ [(ip, maskedFor (first_octet ip) s.mapping.length)],
         s.reverse_mapping ++ [(maskedFor (first_octet ip) s.mapping.length, ip)]⟩ := by
      simp only [mask_ip, hl]
      rw [hmap, hrev2]
    rw [hstate]
    refine ⟨⟨?_, ?_, ?_, ?_⟩, ?_⟩
    · rw [List.map_append, List.nodup_append]
      refine ⟨hkeys, by simp, ?_⟩
      intro a ha hb
      simp only [List.map_cons, List.map_nil, List.mem_singleton] at hb
      exact hnotmem (hb ▸ ha)
    · rw [List.map_append, ← hrev]; rfl
    · simp only [List.length_append, List.length_singleton]
      omega
    · intro k hk
      simp only [List.length_append, List.length_singleton] at hk
      rcases Nat.lt_or_ge k s.mapping.length with hlt2 | hge
      · rw [List.getElem_append_left hlt2]
        exact hidx k hlt2
      · have hkeq : k = s.mapping.length := by omega
        subst hkeq
        rw [List.getElem_concat_length _ _ _ rfl]
    · simp only [List.length_append, List.length_singleton]
      omega

theorem good_to_mutInv (s : MaskState) (hg : GoodState s) : MutuallyInverse s := by
  obtain ⟨hkeys, hrev, hlen, hidx⟩ := hg
  refine ⟨hkeys, ?_, hrev⟩
  show (s.mapping.map Prod.snd).Pairwise (· ≠ ·)
  rw [List.pairwise_iff_getElem]
  intro i j hi hj hij
  rw [List.getElem_map, List.getElem_map]
  intro heq
  have hi2 : i < s.mapping.length := by simpa using hi
  have hj2 : j < s.mapping.length := by simpa using hj
  rw [hidx i hi2, hidx j hj2] at heq
  have := maskedFor_inj _ _ i j (by omega) (by omega) heq
  omega

theorem runOps_good : ∀ (ops : List MaskOp) (s : MaskState), GoodState s →
    s.mapping.length + ops.length ≤ 65536 → GoodState (runOps ops s) := by
  intro ops
  induction ops with
  | nil => intro s hg _; exact hg
  | cons op rest ih =>
    intro s hg hb
    cases op with
    | mask ip =>
      have hlt : s.mapping.length < 65536 := by
        simp only [List.length_cons] at hb; omega
      obtain ⟨hg2, hle⟩ := good_mask s ip hg hlt
      exact ih _ hg2 (by simp only [List.length_cons] at hb; omega)
    | clear =>
      refine ih _ good_empty ?_
      simp only [List.length_cons] at hb
      show 0 + rest.length ≤ 65536
      omega

/-- Claim C9 (counterexample): a session whose *loaded* mapping is the
bijection `{"8.8.8.8": "10.0.1.0"}` loses the mutually-inverse-bijection
property after a single `mask_ip`: the counter (= mapping size 1) synthesizes
`10.0.1.0` again for the fresh class-A address `1.2.3.4`, so two originals
share one pseudonym and the reverse entry is overwritten. -/
theorem claim9_counterexample :
    MutuallyInverse loadedBijSession ∧
    ¬ MutuallyInverse (mask_ip loadedBijSession "1.2.3.4").2 := by
  unfold MutuallyInverse
  decide

/-- Claim C9 (amended): in any session that starts from the *empty* mapping
and performs at most 65536 `mask_ip`/`clear` operations, the forward and the
reverse mapping remain mutually inverse bijections after every operation:
within such a session every newly synthesized pseudonym is distinct from all
existing ones, because the counter equals the strictly-growing mapping size
and stays below the 256×256 wrap-around of the two counter octets.  (A loaded
non-empty bijection does not suffice, and neither does an unbounded session:
a synthesized pseudonym can collide with a loaded or wrapped-around one.) -/
theorem claim9_amended (ops : List MaskOp) (h : ops.length ≤ 65536) :
    MutuallyInverse (runOps ops emptyState) :=
  good_to_mutInv _ (runOps_good ops emptyState good_empty
    (by show 0 + ops.length ≤ 65536; omega))

theorem claim9_witness :
    ([MaskOp.mask "1.2.3.4", MaskOp.mask "8.8.8.8", MaskOp.clear,
      MaskOp.mask "203.0.113.7"] : List MaskOp).length ≤ 65536 ∧
    MutuallyInverse (runOps [MaskOp.mask "1.2.3.4", MaskOp.mask "8.8.8.8", MaskOp.clear,
      MaskOp.mask "203.0.113.7"] emptyState) :=
  ⟨by decide, claim9_amended _ (by decide)⟩

end IPMaskerM

namespace LogParserM

/-- Claim C2: evidence of the severity-bucket slip.  On the enhanced record
for `c2Line` the attack pass sets `threat_type` but no signature matches, so
`severity` is `None`; `get_security_summary` counts the record as an
identified threat, yet `row.get('severity', '未知')` returns the stored
`None` (the default applies only to a missing column), so the tally lands in
a *new* `None` bucket while the pre-seeded `未知` bucket stays at zero —
`severity_counts` is not a mapping over exactly the four buckets. -/
theorem claim2_severity_bucket_slip :
    (enhance (.rawDF [c2Line])).map (fun r => r.fields.threat_type) = [some "SSH登录失败"] ∧
    (enhance (.rawDF [c2Line])).map (fun r => r.fields.severity) = [none] ∧
    (get_security_summary (enhance (.rawDF [c2Line]))).identified_threats = 1 ∧
    PyDict.lookup (get_security_summary (enhance (.rawDF [c2Line]))).severity_counts none
      = some 1 ∧
    PyDict.lookup (get_security_summary (enhance (.rawDF [c2Line]))).severity_counts
      (some "未知") = some 0 ∧
    (get_security_summary (enhance (.rawDF [c2Line]))).severity_counts.map Prod.fst
      = [some "高", some "中", some "低", some "未知", none] := by
  decide

theorem splitEntries_foldr (p : TsPattern) :
    ∀ (ls : List String) (a : String) (cs : List String),
      splitEntries p (a :: cs) ls =
        ⟨a, joinAll (cs ++ (ls.foldr (specGroupStep p) ([], [])).1)⟩ ::
          (ls.foldr (specGroupStep p) ([], [])).2 := by
  intro ls
  induction ls with
  | nil => intro a cs; simp [splitEntries]
  | cons l ls2 ih =>
    intro a cs
    by_cases hm : tsMatches p l
    · simp only [splitEntries, hm, List.isEmpty_cons, Bool.false_eq_true, if_false, if_true,
        List.headD_cons, List.tail_cons]
      rw [ih l []]
      simp [specGroupStep, hm]
    · simp only [splitEntries, hm, List.isEmpty_cons, Bool.false_eq_true, if_false]
      rw [show (a :: cs) ++ [l] = a :: (cs ++ [l]) from rfl]
      rw [ih a (cs ++ [l])]
      simp [specGroupStep, hm, List.append_assoc]

theorem parse_detected_eq_spec (p : TsPattern) (l0 : String) (rest : List String)
    (hm0 : tsMatches p l0 = true) :
    splitEntries p [] (l0 :: rest) = specGrouping p (l0 :: rest) := by
  rw [show splitEntries p [] (l0 :: rest) = splitEntries p [l0] rest from by
    simp [splitEntries, hm0]]
  rw [splitEntries_foldr p rest l0 []]
  simp [specGrouping, specGroupStep, hm0]

theorem specGrouping_timestamps (p : TsPattern) :
    ∀ ls : List String, (specGrouping p ls).map TsEntry.timestamp = ls.filter (tsMatches p) := by
  intro ls
  induction ls with
  | nil => rfl
  | cons l ls2 ih =>
    by_cases hm : tsMatches p l <;>
      simp only [specGrouping, List.foldr_cons, specGroupStep, hm, Bool.false_eq_true, if_true,
        if_false, List.map_cons, List.filter_cons] at ih ⊢ <;>
      simp [hm, ih]

/-- Claim C4: a timestamp convention is detected iff one of the four
conventions (in the fixed priority order) matches every one of the first
`min(10, n)` lines; when convention `p` is detected the parse result is
exactly the spec-side grouping (each matching line opens a record carrying
the subsequent non-matching lines in its message), whose opening lines are
precisely the matching lines, so the record count equals the matching-line
count; and when nothing is detected every raw line becomes its own
`raw_log` record. -/
theorem claim4_line_parse (lines : List String) (hne : lines ≠ []) :
    ((detectTs lines).isSome = true ↔
      ∃ p ∈ timestampPatternOrder, (lines.take 10).all (tsMatches p) = true) ∧
    (∀ p, detectTs lines = some p →
      parse_log_or_txt lines = .tsDF (specGrouping p lines) ∧
      (specGrouping p lines).map TsEntry.timestamp = lines.filter (tsMatches p) ∧
      (specGrouping p lines).length = (lines.filter (tsMatches p)).length) ∧
    (detectTs lines = none → parse_log_or_txt lines = .rawDF lines) := by
  obtain ⟨l0, rest, rfl⟩ := List.exists_cons_of_ne_nil hne
  refine ⟨?_, ?_, ?_⟩
  · unfold detectTs
    rw [List.find?_isSome]
  · intro p hp
    have hp2 := hp
    unfold detectTs at hp2
    have hall := List.find?_some hp2
    have hm0 : tsMatches p l0 = true := by
      have h0 : l0 ∈ (l0 :: rest).take 10 := by simp
      exact List.all_eq_true.mp hall l0 h0
    refine ⟨?_, specGrouping_timestamps p (l0 :: rest), ?_⟩
    · unfold parse_log_or_txt
      simp only [List.isEmpty_cons, Bool.false_eq_true, if_false, hp]
      rw [parse_detected_eq_spec p l0 rest hm0]
    · rw [← specGrouping_timestamps p (l0 :: rest), List.length_map]
  · intro hp
    unfold parse_log_or_txt
    simp only [List.isEmpty_cons, Bool.false_eq_true, if_false, hp]

theorem claim4_witness :
    detectTs c4Lines = some .iso ∧
    parse_log_or_txt c4Lines = .tsDF (specGrouping .iso c4Lines) ∧
    (specGrouping .iso c4Lines).length = 11 ∧
    (c4Lines.filter (tsMatches .iso)).length = 11 := by
  refine ⟨by decide, ((claim4_line_parse c4Lines (by decide)).2.1 .iso (by decide)).1, ?_,
    by decide⟩
  rw [((claim4_line_parse c4Lines (by decide)).2.1 .iso (by decide)).2.2]
  decide

end LogParserM

namespace LogParserM

theorem searchO_some {α : Type} (f : List Char → Option α) :
    ∀ (l : List Char) (g : α), searchO f l = some g → ∃ s, f s = some g := by
  intro l
  induction l with
  | nil => intro g h; exact ⟨[], h⟩
  | cons c rest ih =>
    intro g h
    unfold searchO at h
    cases hf : f (c :: rest) with
    | some a =>
      rw [hf] at h
      simp only at h
      exact ⟨c :: rest, by rw [hf, h]⟩
    | none =>
      rw [hf] at h
      simp only at h
      exact ih g h

theorem greedyDot_some {α : Type} (minC : Nat) (s : List Char) (k : List Char → Option α)
    (g : α) (h : greedyDot minC s k = some g) : ∃ s2, k s2 = some g := by
  unfold greedyDot at h
  obtain ⟨n, _, hk⟩ := List.exists_of_findSome?_eq_some h
  by_cases hc : minC ≤ n
  · rw [if_pos hc] at hk; exact ⟨_, hk⟩
  · rw [if_neg hc] at hk; cases hk

theorem mWebAttack_g2 (t : List Char) (g : AttackGroups) (h : mWebAttack t = some g) :
    g.g2.isSome = true := by
  obtain ⟨s, hs⟩ := searchO_some _ _ _ h
  cases hac : altCap webAlts s with
  | none => rw [hac] at hs; cases hs
  | some pr =>
    obtain ⟨cap, s1⟩ := pr
    rw [hac] at hs
    have hs1 : greedyDot 0 s1 (webCont cap) = some g := hs
    obtain ⟨s2, hs2⟩ := greedyDot_some _ _ _ _ hs1
    unfold webCont at hs2
    cases hsc : stripCI "from ".data s2 with
    | none => rw [hsc] at hs2; cases hs2
    | some s3 =>
      rw [hsc] at hs2
      have hs3 : (do
          let pr2 ← ipChase s3
          pure (⟨cap, some pr2.1⟩ : AttackGroups)) = some g := hs2
      cases hic : ipChase s3 with
      | none => rw [hic] at hs3; cases hs3
      | some pr2 =>
        rw [hic] at hs3
        have hval : some (⟨cap, some pr2.1⟩ : AttackGroups) = some g := hs3
        cases hval
        rfl

theorem attackPass_of_head (t : String) :
    ∀ l : List AttackId,
      (l.filter (fun a => (attackMatch a t).isSome) = [] → attackPass t l = none) ∧
      (∀ a, (l.filter (fun a => (attackMatch a t).isSome)).head? = some a →
        ∃ g, attackMatch a t = some g ∧ attackPass t l = some (a, g)) := by
  intro l
  induction l with
  | nil => exact ⟨fun _ => rfl, fun a h => by simp at h⟩
  | cons b rest ih =>
    cases hmb : attackMatch b t with
    | some g =>
      constructor
      · intro hf
        rw [List.filter_cons] at hf
        simp [hmb] at hf
      · intro a h
        rw [List.filter_cons] at h
        simp only [hmb, Option.isSome_some, if_true, List.head?_cons, Option.some_inj] at h
        subst h
        exact ⟨g, hmb, by simp [attackPass, hmb]⟩
    | none =>
      constructor
      · intro hf
        rw [List.filter_cons] at hf
        simp only [hmb, Option.isSome_none, Bool.false_eq_true, if_false] at hf
        simp [attackPass, hmb, ih.1 hf]
      · intro a h
        rw [List.filter_cons] at h
        simp only [hmb, Option.isSome_none, Bool.false_eq_true, if_false] at h
        obtain ⟨g, hg, hp⟩ := ih.2 a h
        exact ⟨g, hg, by simp [attackPass, hmb, hp]⟩

theorem sigPass_eq_head (t : String) :
    ∀ l : List SigId, sigPass t l = (l.filter (fun g => sigMatch g t)).head? := by
  intro l
  induction l with
  | nil => rfl
  | cons b rest ih =>
    by_cases hb : sigMatch b t <;> simp [sigPass, List.filter_cons, hb, ih]

theorem fbSrcAssign_meta (t : List Char) (ips : List String) (f : EnrichFields) :
    (fbSrcAssign t ips f).threat_type = f.threat_type ∧
    (fbSrcAssign t ips f).severity = f.severity ∧
    (fbSrcAssign t ips f).threat_description = f.threat_description := by
  unfold fbSrcAssign
  repeat' split
  all_goals exact ⟨rfl, rfl, rfl⟩

theorem fbSrcAssign_attacker (t : List Char) (ips : List String) (f : EnrichFields)
    (v : String) (hv : f.attacker_ip = some v) : (fbSrcAssign t ips f).attacker_ip = some v := by
  unfold fbSrcAssign
  repeat' split
  all_goals simp_all

theorem fbDstAssign_meta (t : List Char) (ips : List String) (f : EnrichFields) :
    (fbDstAssign t ips f).threat_type = f.threat_type ∧
    (fbDstAssign t ips f).severity = f.severity ∧
    (fbDstAssign t ips f).threat_description = f.threat_description ∧
    (fbDstAssign t ips f).attacker_ip = f.attacker_ip := by
  unfold fbDstAssign
  repeat' split
  all_goals exact ⟨rfl, rfl, rfl, rfl⟩

theorem fbDefaultAssign_meta (ips : List String) (f : EnrichFields) :
    (fbDefaultAssign ips f).threat_type = f.threat_type ∧
    (fbDefaultAssign ips f).severity = f.severity ∧
    (fbDefaultAssign ips f).threat_description = f.threat_description := by
  unfold fbDefaultAssign
  repeat' split
  all_goals exact ⟨rfl, rfl, rfl⟩

theorem fbDefaultAssign_attacker (ips : List String) (f : EnrichFields)
    (v : String) (hv : f.attacker_ip = some v) :
    (fbDefaultAssign ips f).attacker_ip = some v := by
  simp [fbDefaultAssign, hv]

theorem fbSingleAssign_meta (t : List Char) (ip : String) (f : EnrichFields) :
    (fbSingleAssign t ip f).threat_type = f.threat_type ∧
    (fbSingleAssign t ip f).severity = f.severity ∧
    (fbSingleAssign t ip f).threat_description = f.threat_description := by
  unfold fbSingleAssign
  repeat' split
  all_goals exact ⟨rfl, rfl, rfl⟩

theorem fbSingleAssign_attacker (t : List Char) (ip : String) (f : EnrichFields)
    (v : String) (hv : f.attacker_ip = some v) :
    (fbSingleAssign t ip f).attacker_ip = some v := by
  unfold fbSingleAssign
  repeat' split
  all_goals simp_all

theorem identify_preserves (t : List Char) (f : EnrichFields) :
    (identifyIPRelationships t f).threat_type = f.threat_type ∧
    (identifyIPRelationships t f).severity = f.severity ∧
    (identifyIPRelationships t f).threat_description = f.threat_description := by
  unfold identifyIPRelationships
  dsimp only
  split
  · exact ⟨rfl, rfl, rfl⟩
  · split
    · have hs := fbSrcAssign_meta t (findallIPs t) f
      have hd := fbDstAssign_meta t (findallIPs t) (fbSrcAssign t (findallIPs t) f)
      have hdef := fbDefaultAssign_meta (findallIPs t)
        (fbDstAssign t (findallIPs t) (fbSrcAssign t (findallIPs t) f))
      exact ⟨hdef.1.trans (hd.1.trans hs.1), (hdef.2.1).trans ((hd.2.1).trans hs.2.1),
        (hdef.2.2).trans ((hd.2.2.1).trans hs.2.2)⟩
    · exact fbSingleAssign_meta t ((findallIPs t).headD "") f

theorem identify_preserves_attacker (t : List Char) (f : EnrichFields) (v : String)
    (hv : f.attacker_ip = some v) :
    (identifyIPRelationships t f).attacker_ip = some v := by
  unfold identifyIPRelationships
  dsimp only
  split
  · exact hv
  · split
    · have hs := fbSrcAssign_attacker t (findallIPs t) f v hv
      have hd := (fbDstAssign_meta t (findallIPs t) (fbSrcAssign t (findallIPs t) f)).2.2.2
      exact fbDefaultAssign_attacker (findallIPs t) _ v (hd.trans hs)
    · exact fbSingleAssign_attacker t ((findallIPs t).headD "") f v hv

end LogParserM

namespace LogParserM

theorem applyAttack_sev (a : AttackId) (g : AttackGroups) (f : EnrichFields) :
    (applyAttack a g f).severity = f.severity ∧
    (applyAttack a g f).threat_description = f.threat_description := by
  unfold applyAttack
  split_ifs <;> exact ⟨rfl, rfl⟩

theorem applyAttack_label (t : String) (a : AttackId) (g : AttackGroups)
    (hg : attackMatch a t = some g) (f : EnrichFields) :
    (applyAttack a g f).threat_type = some (attackTypeLabel a t) := by
  unfold applyAttack attackTypeLabel
  by_cases h1 : a = AttackId.firewall_block
  · simp [h1]
  · by_cases h2 : a = AttackId.web_attack
    · subst h2
      simp [h1, hg]
    · simp [h1, h2]

theorem applyAttack_attacker (t : String) (a : AttackId) (g : AttackGroups)
    (hg : attackMatch a t = some g) (f : EnrichFields) :
    (applyAttack a g f).attacker_ip.isSome = true := by
  unfold applyAttack
  by_cases h1 : a = AttackId.firewall_block
  · simp [h1]
  · by_cases h2 : a = AttackId.web_attack
    · subst h2
      simp only [h1, if_false, if_true, reduceIte]
      exact mWebAttack_g2 t.data g hg
    · simp [h1, h2]

theorem finalStep_meta (t : String) (f : EnrichFields) :
    (finalStep t f).threat_type = f.threat_type ∧
    (finalStep t f).severity = f.severity ∧
    (finalStep t f).threat_description = f.threat_description := by
  unfold finalStep
  split
  · exact identify_preserves t.data f
  · exact ⟨rfl, rfl, rfl⟩

theorem finalStep_attacker (t : String) (f : EnrichFields) (v : String)
    (hv : f.attacker_ip = some v) : (finalStep t f).attacker_ip = some v := by
  unfold finalStep
  split
  · exact identify_preserves_attacker t.data f v hv
  · exact hv

theorem sigStep_keep (t : String) (f : EnrichFields) :
    (sigStep t f).threat_type = f.threat_type ∧
    (sigStep t f).attacker_ip = f.attacker_ip := by
  unfold sigStep
  cases sigPass t sigOrder <;> exact ⟨rfl, rfl⟩

theorem sigStep_sev (t : String) (f : EnrichFields) :
    (sigStep t f).severity = ((matchingSigs t).head?.map sigSeverity).orElse (fun _ => f.severity) ∧
    (sigStep t f).threat_description =
      ((matchingSigs t).head?.map sigDescription).orElse (fun _ => f.threat_description) := by
  unfold sigStep
  cases hf : sigPass t sigOrder with
  | none =>
    have h2 : (matchingSigs t).head? = none := (sigPass_eq_head t sigOrder).symm.trans hf
    rw [h2]
    exact ⟨rfl, rfl⟩
  | some g =>
    have h2 : (matchingSigs t).head? = some g := (sigPass_eq_head t sigOrder).symm.trans hf
    rw [h2]
    exact ⟨rfl, rfl⟩

theorem attackStep_type (t : String) :
    (attackStep t {}).threat_type =
      (matchingAttacks t).head?.map (fun a => attackTypeLabel a t) := by
  cases hh : (matchingAttacks t).head? with
  | none =>
    have hfe : matchingAttacks t = [] := by
      cases hmk : matchingAttacks t with
      | nil => rfl
      | cons x xs => rw [hmk] at hh; cases hh
    have hap : attackPass t attackOrder = none := (attackPass_of_head t attackOrder).1 hfe
    unfold attackStep
    rw [hap]
    rfl
  | some a =>
    obtain ⟨g, hg, hap⟩ := (attackPass_of_head t attackOrder).2 a hh
    unfold attackStep
    rw [hap]
    exact applyAttack_label t a g hg {}

theorem attackStep_sev (t : String) :
    (attackStep t {}).severity = none ∧ (attackStep t {}).threat_description = none := by
  unfold attackStep
  cases attackPass t attackOrder with
  | none => exact ⟨rfl, rfl⟩
  | some pr => exact applyAttack_sev pr.1 pr.2 {}

theorem attackStep_attacker (t : String) (a : AttackId)
    (hh : (matchingAttacks t).head? = some a) :
    ∃ v, (attackStep t {}).attacker_ip = some v := by
  obtain ⟨g, hg, hap⟩ := (attackPass_of_head t attackOrder).2 a hh
  unfold attackStep
  rw [hap]
  exact Option.isSome_iff_exists.mp (applyAttack_attacker t a g hg {})

/-- Claim C5: per record text, the enrichment applies at most one attack
pattern — the first match in catalog order determines `threat_type` (and the
attacker assignment), and no later pattern is consulted — and, independently,
at most one threat signature — the first match in catalog order determines
`severity` and `threat_description`; in particular a text matching at least
one pattern and at least one signature ends with `threat_type`, `severity`
and `threat_description` all set. -/
theorem claim5_enrichment_passes (t : String) :
    ((enhanceText t).threat_type =
      (matchingAttacks t).head?.map (fun a => attackTypeLabel a t)) ∧
    ((enhanceText t).severity = (matchingSigs t).head?.map sigSeverity) ∧
    ((enhanceText t).threat_description = (matchingSigs t).head?.map sigDescription) ∧
    (∀ a, (matchingAttacks t).head? = some a → (enhanceText t).attacker_ip.isSome = true) ∧
    (matchingAttacks t ≠ [] → matchingSigs t ≠ [] →
      (enhanceText t).threat_type.isSome = true ∧
      (enhanceText t).severity.isSome = true ∧
      (enhanceText t).threat_description.isSome = true) := by
  have hTT : (enhanceText t).threat_type =
      (matchingAttacks t).head?.map (fun a => attackTypeLabel a t) := by
    show (finalStep t (sigStep t (attackStep t {}))).threat_type = _
    rw [(finalStep_meta t _).1, (sigStep_keep t _).1, attackStep_type t]
  have hSV : (enhanceText t).severity = (matchingSigs t).head?.map sigSeverity := by
    show (finalStep t (sigStep t (attackStep t {}))).severity = _
    rw [(finalStep_meta t _).2.1, (sigStep_sev t _).1, (attackStep_sev t).1]
    cases (matchingSigs t).head? <;> rfl
  have hTD : (enhanceText t).threat_description =
      (matchingSigs t).head?.map sigDescription := by
    show (finalStep t (sigStep t (attackStep t {}))).threat_description = _
    rw [(finalStep_meta t _).2.2, (sigStep_sev t _).2, (attackStep_sev t).2]
    cases (matchingSigs t).head? <;> rfl
  refine ⟨hTT, hSV, hTD, ?_, ?_⟩
  · intro a hh
    obtain ⟨v, hv⟩ := attackStep_attacker t a hh
    have h2 : (sigStep t (attackStep t {})).attacker_ip = some v :=
      (sigStep_keep t _).2.trans hv
    have h3 := finalStep_attacker t _ v h2
    show (finalStep t (sigStep t (attackStep t {}))).attacker_ip.isSome = true
    rw [h3]
    rfl
  · intro hA hS
    obtain ⟨a, ha⟩ : ∃ a, (matchingAttacks t).head? = some a := by
      cases hmk : matchingAttacks t with
      | nil => exact absurd hmk hA
      | cons x xs => exact ⟨x, rfl⟩
    obtain ⟨sg, hsg⟩ : ∃ sg, (matchingSigs t).head? = some sg := by
      cases hmk : matchingSigs t with
      | nil => exact absurd hmk hS
      | cons x xs => exact ⟨x, rfl⟩
    refine ⟨?_, ?_, ?_⟩
    · rw [hTT, ha]; rfl
    · rw [hSV, hsg]; rfl
    · rw [hTD, hsg]; rfl

theorem claim5_witness :
    matchingAttacks "Failed password for root from 1.2.3.4 - brute force attempt"
      = [.ssh_failed_login] ∧
    matchingSigs "Failed password for root from 1.2.3.4 - brute force attempt"
      = [.bruteforce] ∧
    (enhanceText "Failed password for root from 1.2.3.4 - brute force attempt").threat_type.isSome
      = true ∧
    (enhanceText "Failed password for root from 1.2.3.4 - brute force attempt").severity.isSome
      = true ∧
    (enhanceText "Failed password for root from 1.2.3.4 - brute force attempt").threat_description.isSome
      = true :=
  ⟨by decide, by decide,
    ((claim5_enrichment_passes "Failed password for root from 1.2.3.4 - brute force attempt").2.2.2.2
      (by decide) (by decide)).1,
    ((claim5_enrichment_passes "Failed password for root from 1.2.3.4 - brute force attempt").2.2.2.2
      (by decide) (by decide)).2.1,
    ((claim5_enrichment_passes "Failed password for root from 1.2.3.4 - brute force attempt").2.2.2.2
      (by decide) (by decide)).2.2⟩

end LogParserM

namespace LogParserM

/-- Claim C6 (counterexample): on `c6Sample` the library sniffer confirms
`','` but raises `csv.Error` on `';'` (the second candidate), so the real
fallback — modelled with that verified sniffer outcome — aborts and never
selects any delimiter, although the comma splits every sampled line into
exactly 3 columns (perfect consistency, the candidate the claim says must be
selected) while the semicolon yields 1,1,1,8.  Even in a run where every
candidate is confirmed, the loop keeps the candidate with the largest
per-line *maximum* column count and would pick `';'` over the perfectly
consistent `','`. -/
theorem claim6_counterexample :
    csvFallbackDelimiter (fun d => d = ',') c6Sample = Except.error () ∧
    ((pySplitlines c6Sample).map (fun l => (splitOnChar ',' l.data).length)) = [3, 3, 3, 3] ∧
    ((pySplitlines c6Sample).map (fun l => (splitOnChar ';' l.data).length)) = [1, 1, 1, 8] ∧
    mostConsistentDelimiter c6Sample = ',' ∧
    csvFallbackDelimiter (fun _ => true) c6Sample = Except.ok ';' :=
  ⟨rfl, by decide, by decide, by decide, rfl⟩

/-- Claim C6 (amended): when the primary parse fails, the fallback samples
the first 4KB and tests the four candidates in order, asking the csv sniffer
to confirm each one on the sample; if the sniffer rejects any candidate, the
fallback aborts with the sniffer's error and no delimiter is ever selected;
only when every candidate is confirmed does it select the candidate yielding
the largest maximum per-line column count over the sampled lines (the first
candidate wins ties), and the full file is then re-parsed with that winner. -/
theorem claim6_amended (sniffOk : Char → Bool) (content : String) :
    ((∃ d ∈ csvDelims, sniffOk d = false) →
      csvFallbackDelimiter sniffOk content = Except.error ()) ∧
    ((∀ d ∈ csvDelims, sniffOk d = true) →
      ∃ best, csvFallbackDelimiter sniffOk content = Except.ok best ∧ best ∈ csvDelims ∧
        ∀ d ∈ csvDelims, maxColumns d (csvSample content) ≤
          maxColumns best (csvSample content)) := by
  constructor
  · rintro ⟨d, hd, hdf⟩
    have hmem : d = ',' ∨ d = ';' ∨ d = '\t' ∨ d = '|' := by
      simpa [csvDelims] using hd
    rcases hmem with rfl | rfl | rfl | rfl
    · simp [csvFallbackDelimiter, csvDelims, bestDelimiterLoop, Except.map, hdf]
    · by_cases s1 : sniffOk ',' <;>
        simp [csvFallbackDelimiter, csvDelims, bestDelimiterLoop, Except.map, s1, hdf]
    · by_cases s1 : sniffOk ',' <;> by_cases s2 : sniffOk ';' <;>
        simp [csvFallbackDelimiter, csvDelims, bestDelimiterLoop, Except.map, s1, s2, hdf]
    · by_cases s1 : sniffOk ',' <;> by_cases s2 : sniffOk ';' <;> by_cases s3 : sniffOk '\t' <;>
        simp [csvFallbackDelimiter, csvDelims, bestDelimiterLoop, Except.map, s1, s2, s3, hdf]
  · intro hall
    have s1 := hall ',' (by simp [csvDelims])
    have s2 := hall ';' (by simp [csvDelims])
    have s3 := hall '\t' (by simp [csvDelims])
    have s4 := hall '|' (by simp [csvDelims])
    simp only [csvFallbackDelimiter, csvDelims, bestDelimiterLoop, s1, s2, s3, s4, if_true,
      Except.map]
    refine ⟨_, rfl, ?_, ?_⟩
    · split_ifs <;> simp [csvDelims]
    · intro d hd
      have hmem : d = ',' ∨ d = ';' ∨ d = '\t' ∨ d = '|' := by
        simpa [csvDelims] using hd
      rcases hmem with rfl | rfl | rfl | rfl <;> split_ifs <;> simp_all <;> omega

theorem claim6_witness :
    csvFallbackDelimiter (fun d => d = ',') c6Sample = Except.error () ∧
    (∃ best, csvFallbackDelimiter (fun _ => true) c6Sample = Except.ok best ∧
      best ∈ csvDelims ∧
      ∀ d ∈ csvDelims, maxColumns d (csvSample c6Sample) ≤
        maxColumns best (csvSample c6Sample)) :=
  ⟨(claim6_amended (fun d => d = ',') c6Sample).1 ⟨';', by decide, by decide⟩,
   (claim6_amended (fun _ => true) c6Sample).2 (fun d _ => rfl)⟩

end LogParserM
